import Mathlib

/-!
# humanlog: handler options, configuration merge and the zap development prefix handler

A shallow embedding of `handler.go`, `internal/pkg/config/config.go` and
`zap_development_handler.go`, followed by theorems about them.

Conventions of the embedding:

* a Go pointer that may be nil (`*T`) is an `Option T`; a slice `[]T` is a `List T`;
* a package-level variable that the code writes to is passed in and handed back
  explicitly (state passing);
* a line (`[]byte`) is the list of its characters (its decoded runes).
-/

namespace Humanlog

/-! ## internal/pkg/config/config.go -/

namespace config

/-- The `TextPalette` struct of config.go. -/
structure TextPalette where
  KeyColor : List String
  ValColor : List String
  TimeLightBgColor : List String
  TimeDarkBgColor : List String
  MsgLightBgColor : List String
  MsgAbsentLightBgColor : List String
  MsgDarkBgColor : List String
  MsgAbsentDarkBgColor : List String
  DebugLevelColor : List String
  InfoLevelColor : List String
  WarnLevelColor : List String
  ErrorLevelColor : List String
  PanicLevelColor : List String
  FatalLevelColor : List String
  UnknownLevelColor : List String
  deriving DecidableEq, Repr

/-- The `Config` struct of config.go; every pointer field is an `Option`. -/
structure Config where
  Version : Int
  Skip : Option (List String)
  Keep : Option (List String)
  TimeFields : Option (List String)
  MessageFields : Option (List String)
  LevelFields : Option (List String)
  SortLongest : Option Bool
  SkipUnchanged : Option Bool
  Truncates : Option Bool
  LightBg : Option Bool
  ColorMode : Option String
  TruncateLength : Option Int
  TimeFormat : Option String
  Palette : Option TextPalette
  Interrupt : Option Bool
  deriving DecidableEq, Repr

/-- The package variable `DefaultConfig` (`time.Stamp` is the layout `Jan _2 15:04:05`). -/
def DefaultConfig : Config where
  Version := 1
  Skip := some []
  Keep := some []
  TimeFields := some ["time", "ts", "@timestamp", "timestamp"]
  MessageFields := some ["message", "msg"]
  LevelFields := some ["level", "lvl", "loglevel", "severity"]
  SortLongest := some true
  SkipUnchanged := some true
  Truncates := some true
  LightBg := some false
  ColorMode := some "auto"
  TruncateLength := some 15
  TimeFormat := some "Jan _2 15:04:05"
  Interrupt := some false
  Palette := none

/-- The method `populateEmpty` of config.go: `out` starts as a copy of `cfg` and is
updated by the twelve `if` statements in source order. -/
def Config.populateEmpty (cfg : Config) (other : Config) : Config :=
  let out := cfg
  let out := if out.Skip.isNone && out.Keep.isNone then
      { out with Skip := other.Skip, Keep := other.Keep } else out
  let out := if out.TimeFields.isNone && other.TimeFields.isSome then
      { out with TimeFields := other.TimeFields } else out
  let out := if out.MessageFields.isNone && other.MessageFields.isSome then
      { out with MessageFields := other.MessageFields } else out
  let out := if out.LevelFields.isNone && other.LevelFields.isSome then
      { out with LevelFields := other.LevelFields } else out
  let out := if out.SortLongest.isNone && other.SortLongest.isSome then
      { out with SortLongest := other.SortLongest } else out
  let out := if out.SkipUnchanged.isNone && other.SkipUnchanged.isSome then
      { out with SkipUnchanged := other.SkipUnchanged } else out
  let out := if out.Truncates.isNone && other.Truncates.isSome then
      { out with Truncates := other.Truncates } else out
  let out := if out.LightBg.isNone && other.LightBg.isSome then
      { out with LightBg := other.LightBg } else out
  let out := if out.ColorMode.isNone && other.ColorMode.isSome then
      { out with ColorMode := other.ColorMode } else out
  let out := if out.TruncateLength.isNone && other.TruncateLength.isSome then
      { out with TruncateLength := other.TruncateLength } else out
  let out := if out.TimeFormat.isNone && other.TimeFormat.isSome then
      { out with TimeFormat := other.TimeFormat } else out
  let out := if out.Palette.isNone && other.Palette.isSome then
      { out with Palette := other.Palette } else out
  out

/-- A filter list that is set and holds at least one name. -/
def nonEmptyList (l : Option (List String)) : Bool :=
  match l with
  | some (_ :: _) => true
  | _ => false

end config

/-! ## handler.go -/

/-- The `HandlerOptions` struct of handler.go. -/
structure HandlerOptions where
  TimeFields : List String
  MessageFields : List String
  LevelFields : List String
  deriving DecidableEq, Repr

/-- The value `DefaultOptions` is declared with. -/
def DefaultOptions : HandlerOptions where
  TimeFields := ["time", "ts", "@timestamp", "timestamp"]
  MessageFields := ["message", "msg"]
  LevelFields := ["level", "lvl", "loglevel", "severity"]

/-- The function `HandlerOptionsFrom` of handler.go. `DefaultOptions` is a
`*HandlerOptions`, so `opts := DefaultOptions` copies the pointer and every assignment
to `opts.X` writes into the package-level record. The argument `defaultOptions` is
what `DefaultOptions` points to before the call; the result is the pair of what the
returned pointer points to and what `DefaultOptions` points to after the call (the
same record). -/
def HandlerOptionsFrom (cfg : config.Config) (defaultOptions : HandlerOptions) :
    HandlerOptions × HandlerOptions :=
  let opts := defaultOptions
  let opts := match cfg.TimeFields with
    | some v => { opts with TimeFields := v }
    | none => opts
  let opts := match cfg.MessageFields with
    | some v => { opts with MessageFields := v }
    | none => opts
  let opts := match cfg.LevelFields with
    | some v => { opts with LevelFields := v }
    | none => opts
  (opts, opts)

/-- What `DefaultOptions` holds once the package is initialised: the declaration,
then `var _ = HandlerOptionsFrom(config.DefaultConfig)`. -/
def initialDefaultOptions : HandlerOptions :=
  (HandlerOptionsFrom config.DefaultConfig DefaultOptions).2

/-- What `DefaultOptions` holds after a sequence of calls of `HandlerOptionsFrom`,
starting from `s`. -/
def afterCalls (cfgs : List config.Config) (s : HandlerOptions) : HandlerOptions :=
  cfgs.foldl (fun st c => (HandlerOptionsFrom c st).2) s

/-! ## The pattern engine used by zap_development_handler.go

`regexp.MustCompile(...).FindSubmatch` is modelled by a backtracking matcher over the
compiled pattern. Go's `regexp` returns, among the matches that begin leftmost, the
one a backtracking engine finds first; the matcher below tries the alternatives of
every repetition in that order (a greedy repetition tries to take one more character
before it tries to stop, a non-greedy one the other way round). In the two patterns
of this file every repeated item is a single character class, so a repetition is
`rep cls min max greedy`. -/

/-- The Perl class `\d` of Go's regexp: ASCII digits. -/
def isDigit (c : Char) : Bool := '0' ≤ c && c ≤ '9'

/-- The Perl class `\s` of Go's regexp: tab, newline, form feed, carriage return, space. -/
def isSpace (c : Char) : Bool :=
  c == '\t' || c == '\n' || c == Char.ofNat 12 || c == '\r' || c == ' '

/-- The Perl class `\w` of Go's regexp: ASCII letters, digits and underscore. -/
def isWord (c : Char) : Bool :=
  isDigit c || ('A' ≤ c && c ≤ 'Z') || ('a' ≤ c && c ≤ 'z') || c == '_'

/-- The class `\S`. -/
def isNonSpace (c : Char) : Bool := !isSpace c

/-- The class `[^{]`. -/
def isNotBrace (c : Char) : Bool := c != '{'

/-- The class `.` (no `s` flag): any character but newline. -/
def isDot (c : Char) : Bool := c != '\n'

/-- One instruction of a compiled pattern. -/
inductive Inst where
  /-- `^` without the `m` flag: beginning of text. -/
  | bol : Inst
  /-- `$` without the `m` flag: end of text. -/
  | eol : Inst
  /-- Record the current position in a capture slot (group `i` owns slots `2i`, `2i+1`). -/
  | cap : Nat → Inst
  /-- A literal character. -/
  | chr : Char → Inst
  /-- A class repeated between `min` and `max` times (`none`: unbounded). -/
  | rep : (Char → Bool) → Nat → Option Nat → Bool → Inst

/-- The capture slots: slot number to position. -/
abbrev Slots := Nat → Nat

/-- Write position `pos` into slot `n`. -/
def Slots.set (s : Slots) (n pos : Nat) : Slots := fun i => if i = n then pos else s i

/-- A repetition of the class `cls`, then the continuation `k`. `lo` is how many more
characters must be taken, `hi` how many more may be taken. -/
def runRep {α : Type} (cls : Char → Bool) (greedy : Bool) (k : Nat → List Char → Option α) :
    List Char → Nat → Option Nat → Nat → Option α
  | [], lo, _, pos => if lo = 0 then k pos [] else none
  | c :: cs, lo, hi, pos =>
    let stop := if lo = 0 then k pos (c :: cs) else none
    let more := if cls c && hi != some 0 then
        runRep cls greedy k cs (lo - 1) (hi.map (· - 1)) (pos + 1) else none
    if greedy then more.orElse (fun _ => stop) else stop.orElse (fun _ => more)

/-- Run the instructions from position `pos`, where `rest` is the text from `pos` on. -/
def run : List Inst → Nat → List Char → Slots → Option Slots
  | [], _, _, s => some s
  | .bol :: is, pos, rest, s => if pos = 0 then run is pos rest s else none
  | .eol :: is, pos, rest, s => if rest.isEmpty then run is pos rest s else none
  | .cap n :: is, pos, rest, s => run is pos rest (s.set n pos)
  | .chr c :: is, pos, rest, s =>
    match rest with
    | c1 :: cs => if c1 = c then run is (pos + 1) cs s else none
    | [] => none
  | .rep cls lo hi greedy :: is, pos, rest, s =>
    runRep cls greedy (fun p r => run is p r s) rest lo hi pos

/-- The unanchored, leftmost search: try the pattern at `pos`, then at every later
position. -/
def search (prog : List Inst) : Nat → List Char → Option Slots
  | pos, [] => run prog pos [] (fun _ => 0)
  | pos, c :: cs =>
    match run prog pos (c :: cs) (fun _ => 0) with
    | some s => some s
    | none => search prog (pos + 1) cs

/-- The text of group `i` of a match. -/
def submatch (d : List Char) (s : Slots) (i : Nat) : List Char :=
  (d.drop (s (2 * i))).take (s (2 * i + 1) - s (2 * i))

/-- The method `FindSubmatch` for a pattern with `groups` capture groups: `none`
when there is no match, else the texts of group 0 (the whole match) to `groups`. -/
def FindSubmatch (prog : List Inst) (groups : Nat) (d : List Char) : Option (List (List Char)) :=
  match search prog 0 d with
  | some s => some ((List.range (groups + 1)).map (submatch d s))
  | none => none

/-! ## zap_development_handler.go -/

/-- The compiled `zapDevLogsPrefixRe`:
`^(?P<timestamp>\d{4}-\d{2}-\d{2}T\d{2}:\d{2}:\d{2}\.\d{3}-\d{4})\s+(?P<level>\w{4,5})\s+`
`(?P<location>\S+)\s+(?P<message>[^{]+?)\s+(?P<jsonbody>{.+})$`. -/
def zapDevLogsPrefixRe : List Inst :=
  [ .cap 0,
    .bol,                                   -- ^
    .cap 2,                                 -- (?P<timestamp>
    .rep isDigit 4 (some 4) true,           --   \d{4}
    .chr '-',                               --   -
    .rep isDigit 2 (some 2) true,           --   \d{2}
    .chr '-',                               --   -
    .rep isDigit 2 (some 2) true,           --   \d{2}
    .chr 'T',                               --   T
    .rep isDigit 2 (some 2) true,           --   \d{2}
    .chr ':',                               --   :
    .rep isDigit 2 (some 2) true,           --   \d{2}
    .chr ':',                               --   :
    .rep isDigit 2 (some 2) true,           --   \d{2}
    .chr '.',                               --   \.
    .rep isDigit 3 (some 3) true,           --   \d{3}
    .chr '-',                               --   -
    .rep isDigit 4 (some 4) true,           --   \d{4}
    .cap 3,                                 -- )
    .rep isSpace 1 none true,               -- \s+
    .cap 4,                                 -- (?P<level>
    .rep isWord 4 (some 5) true,            --   \w{4,5}
    .cap 5,                                 -- )
    .rep isSpace 1 none true,               -- \s+
    .cap 6,                                 -- (?P<location>
    .rep isNonSpace 1 none true,            --   \S+
    .cap 7,                                 -- )
    .rep isSpace 1 none true,               -- \s+
    .cap 8,                                 -- (?P<message>
    .rep isNotBrace 1 none false,           --   [^{]+?
    .cap 9,                                 -- )
    .rep isSpace 1 none true,               -- \s+
    .cap 10,                                -- (?P<jsonbody>
    .chr '{',                               --   {
    .rep isDot 1 none true,                 --   .+
    .chr '}',                               --   }
    .cap 11,                                -- )
    .eol,                                   -- $
    .cap 1 ]

/-- The compiled `zapDevDCLogsPrefixRe` (the separators are literal tab characters):
`^(?P<timestamp>\d{4}-\d{2}-\d{2}T\d{2}:\d{2}:\d{2}\.\d{3}Z)\t(?P<level>\w{4,5})\t`
`(?P<location>\S+)\t(?P<message>[^{]+?)\t(?P<jsonbody>{.+})$`. -/
def zapDevDCLogsPrefixRe : List Inst :=
  [ .cap 0,
    .bol,                                   -- ^
    .cap 2,                                 -- (?P<timestamp>
    .rep isDigit 4 (some 4) true,           --   \d{4}
    .chr '-',                               --   -
    .rep isDigit 2 (some 2) true,           --   \d{2}
    .chr '-',                               --   -
    .rep isDigit 2 (some 2) true,           --   \d{2}
    .chr 'T',                               --   T
    .rep isDigit 2 (some 2) true,           --   \d{2}
    .chr ':',                               --   :
    .rep isDigit 2 (some 2) true,           --   \d{2}
    .chr ':',                               --   :
    .rep isDigit 2 (some 2) true,           --   \d{2}
    .chr '.',                               --   \.
    .rep isDigit 3 (some 3) true,           --   \d{3}
    .chr 'Z',                               --   Z
    .cap 3,                                 -- )
    .chr '\t',                              -- tab
    .cap 4,                                 -- (?P<level>
    .rep isWord 4 (some 5) true,            --   \w{4,5}
    .cap 5,                                 -- )
    .chr '\t',                              -- tab
    .cap 6,                                 -- (?P<location>
    .rep isNonSpace 1 none true,            --   \S+
    .cap 7,                                 -- )
    .chr '\t',                              -- tab
    .cap 8,                                 -- (?P<message>
    .rep isNotBrace 1 none false,           --   [^{]+?
    .cap 9,                                 -- )
    .chr '\t',                              -- tab
    .cap 10,                                -- (?P<jsonbody>
    .chr '{',                               --   {
    .rep isDot 1 none true,                 --   .+
    .chr '}',                               --   }
    .cap 11,                                -- )
    .eol,                                   -- $
    .cap 1 ]

/-- The constant `someRFC`, the layout handed to `time.Parse`. -/
def someRFC : String := "2006-01-02T15:04:05.000-0700"

/-- What `time.Parse` returns on success: the date and clock fields as written, and the
zone offset in seconds east of UTC. Together they fix the instant. -/
structure Time where
  year : Nat
  month : Nat
  day : Nat
  hour : Nat
  minute : Nat
  second : Nat
  nanosecond : Nat
  zoneOffset : Int
  deriving DecidableEq, Repr

/-- The value of a run of ASCII digits. -/
def digitsToNat (cs : List Char) : Nat :=
  cs.foldl (fun n c => 10 * n + (c.toNat - 48)) 0

/-- Read exactly `n` digits (`getnum` with `fixed`, and the four digits of the year). -/
def takeDigits (n : Nat) (v : List Char) : Option (Nat × List Char) :=
  if n ≤ v.length && (v.take n).all isDigit then some (digitsToNat (v.take n), v.drop n)
  else none

/-- Read one or two digits (`getnum` without `fixed`, used for the hour `15`). -/
def takeDigits12 (v : List Char) : Option (Nat × List Char) :=
  match v with
  | c1 :: c2 :: r =>
    if isDigit c1 && isDigit c2 then some (digitsToNat [c1, c2], r)
    else if isDigit c1 then some (digitsToNat [c1], c2 :: r) else none
  | [c1] => if isDigit c1 then some (digitsToNat [c1], []) else none
  | [] => none

/-- Skip a literal character of the layout. -/
def takeChar (c : Char) (v : List Char) : Option (List Char) :=
  match v with
  | c1 :: r => if c1 = c then some r else none
  | [] => none

/-- The three characters after the separator of the fraction `.000`, read by `atoi`,
which admits a sign; a negative value is out of range. The result is in milliseconds. -/
def takeMillis (v : List Char) : Option (Nat × List Char) :=
  match v with
  | sep :: a :: b :: c :: r =>
    if sep = '.' || sep = ',' then
      if isDigit a && isDigit b && isDigit c then some (digitsToNat [a, b, c], r)
      else if a = '+' && isDigit b && isDigit c then some (digitsToNat [b, c], r)
      else if a = '-' && b = '0' && c = '0' then some (0, r)
      else none
    else none
  | _ => none

/-- The function `isLeap` of package time. -/
def isLeap (year : Nat) : Bool :=
  year % 4 == 0 && (year % 100 != 0 || year % 400 == 0)

/-- The function `daysIn` of package time. -/
def daysIn (month year : Nat) : Nat :=
  if month = 2 then (if isLeap year then 29 else 28)
  else if month = 4 || month = 6 || month = 9 || month = 11 then 30 else 31

/-- The elements of the layout as read from a value, before any range check. -/
structure RawTime where
  year : Nat
  month : Nat
  day : Nat
  hour : Nat
  minute : Nat
  second : Nat
  millis : Nat
  sign : Char
  zoneHour : Nat
  zoneMinute : Nat
  deriving DecidableEq, Repr

/-- The numeric zone `-0700`: a sign character and two pairs of digits; the sign must
be `+` or `-`. -/
def takeZone (v : List Char) : Option (Char × Nat × Nat × List Char) :=
  match v with
  | sign :: r =>
    (takeDigits 2 r).bind fun zh =>
    (takeDigits 2 zh.2).bind fun zm =>
    if sign == '+' || sign == '-' then some (sign, zh.1, zm.1, zm.2) else none
  | [] => none

/-- The date part `2006-01-02` of the layout: year, month, day and the remaining text. -/
def readDate (value : List Char) : Option (Nat × Nat × Nat × List Char) :=
  (takeDigits 4 value).bind fun year =>
  (takeChar '-' year.2).bind fun v =>
  (takeDigits 2 v).bind fun month =>
  (takeChar '-' month.2).bind fun v =>
  (takeDigits 2 v).bind fun day =>
  some (year.1, month.1, day.1, day.2)

/-- The clock part `15:04:05` of the layout: hour, minute, second and the remaining
text. -/
def readClock (value : List Char) : Option (Nat × Nat × Nat × List Char) :=
  (takeDigits12 value).bind fun hour =>
  (takeChar ':' hour.2).bind fun v =>
  (takeDigits 2 v).bind fun minute =>
  (takeChar ':' minute.2).bind fun v =>
  (takeDigits 2 v).bind fun second =>
  some (hour.1, minute.1, second.1, second.2)

/-- Read the elements of `2006-01-02T15:04:05.000-0700` from left to right: the date,
`T`, the clock, a fraction of exactly three digits, a signed numeric zone; no text may
remain. -/
def readSomeRFC (value : List Char) : Option RawTime :=
  (readDate value).bind fun date =>
  (takeChar 'T' date.2.2.2).bind fun v =>
  (readClock v).bind fun clock =>
  (takeMillis clock.2.2.2).bind fun millis =>
  (takeZone millis.2).bind fun zone =>
  if zone.2.2.2.isEmpty then
    some { year := date.1, month := date.2.1, day := date.2.2.1, hour := clock.1,
           minute := clock.2.1, second := clock.2.2.1, millis := millis.1,
           sign := zone.1, zoneHour := zone.2.1, zoneMinute := zone.2.2.1 }
  else none

/-- The range checks of `Parse`: month 1 to 12, hour below 24, minute and second below
60, zone offset at most 24 hours and 60 minutes, day within the month. -/
def inRange (r : RawTime) : Bool :=
  1 ≤ r.month && r.month ≤ 12 && r.hour < 24 && r.minute < 60 && r.second < 60 &&
  r.zoneHour ≤ 24 && r.zoneMinute ≤ 60 && 1 ≤ r.day && r.day ≤ daysIn r.month r.year

/-- The zone offset in seconds east of UTC. -/
def zoneSeconds (r : RawTime) : Int :=
  let off : Int := ((r.zoneHour * 60 + r.zoneMinute) * 60 : Nat)
  if r.sign == '-' then -off else off

/-- The call `time.Parse(someRFC, value)`: the elements of the layout are read, each
is checked against its range, and the day against the month. `none` is any error. -/
def parseSomeRFC (value : List Char) : Option Time :=
  match readSomeRFC value with
  | none => none
  | some r =>
    if inRange r then
      some { year := r.year, month := r.month, day := r.day, hour := r.hour,
             minute := r.minute, second := r.second, nanosecond := r.millis * 1000000,
             zoneOffset := zoneSeconds r }
    else none

/-- Modelled from the spec: the declaration of `JSONHandler` is not among the sources.
The canonical record of section 3 (time, level, message, the ordered field mapping and
the previous field values) together with the options the handler reads. -/
structure JSONHandler where
  Opts : HandlerOptions
  Level : String
  Time : Option Time
  Message : String
  Fields : List (String × String)
  last : List (String × String)
  deriving DecidableEq, Repr

/-- Modelled from the spec (part of `setField`, which is not among the sources):
assignment `m[key] = val` on an ordered mapping with unique keys; an existing key keeps
its place, a new key goes last. -/
def setKey : List (String × String) → String → String → List (String × String)
  | [], k, v => [(k, v)]
  | (k1, v1) :: m, k, v => if k1 = k then (k, v) :: m else (k1, v1) :: setKey m k v

/-- Modelled from the spec: the method `setField` is not among the sources. It stores
`val` under `key` in the field mapping of the record. -/
def JSONHandler.setField (h : JSONHandler) (key val : List Char) : JSONHandler :=
  { h with Fields := setKey h.Fields (String.mk key) (String.mk val) }

/-- The call `strings.ToLower` on a token of ASCII characters (the level token is
matched by `\w{4,5}`, which is ASCII only). -/
def ToLower (s : List Char) : List Char := s.map Char.toLower

/-! ### The structured-object dialect

`JSONHandler.TryHandle` is not among the sources. `tryZapDevPrefix` below takes it as
a parameter; the definitions of this section give one instance of it, following
section 4.1 of the specification, for use at concrete lines. -/

/-- Modelled from the spec: part of `TryHandle`, which is not among the sources.
Insignificant whitespace of a structured object. -/
def isJsonWs (c : Char) : Bool := c == ' ' || c == '\t' || c == '\n' || c == '\r'

/-- Modelled from the spec: part of `TryHandle`, which is not among the sources.
Drop leading insignificant whitespace. -/
def skipWs (cs : List Char) : List Char := cs.dropWhile isJsonWs

/-- Modelled from the spec: part of `TryHandle`, which is not among the sources.
The character an escape `\c` inside a string stands for. -/
def unescape (c : Char) : Option Char :=
  if c == '"' then some '"' else if c == '\\' then some '\\' else if c == '/' then some '/'
  else if c == 'b' then some (Char.ofNat 8) else if c == 'f' then some (Char.ofNat 12)
  else if c == 'n' then some '\n' else if c == 'r' then some '\r'
  else if c == 't' then some '\t' else none

/-- Modelled from the spec: part of `TryHandle`, which is not among the sources.
The value of a hexadecimal digit. -/
def hexVal (c : Char) : Option Nat :=
  if isDigit c then some (c.toNat - 48)
  else if 'a' ≤ c && c ≤ 'f' then some (c.toNat - 87)
  else if 'A' ≤ c && c ≤ 'F' then some (c.toNat - 55) else none

/-- Modelled from the spec: part of `TryHandle`, which is not among the sources.
The text of a string after its opening quote: the decoded content and what follows
the closing quote. -/
def scanString : Nat → List Char → Option (List Char × List Char)
  | 0, _ => none
  | _ + 1, [] => none
  | n + 1, c :: r =>
    if c == '"' then some ([], r)
    else if c == '\\' then
      match r with
      | 'u' :: h1 :: h2 :: h3 :: h4 :: r2 =>
        match hexVal h1, hexVal h2, hexVal h3, hexVal h4 with
        | some a, some b, some c1, some d =>
          (scanString n r2).map fun p =>
            (Char.ofNat (((a * 16 + b) * 16 + c1) * 16 + d) :: p.1, p.2)
        | _, _, _, _ => none
      | e :: r2 =>
        match unescape e with
        | some d => (scanString n r2).map fun p => (d :: p.1, p.2)
        | none => none
      | [] => none
    else if c.toNat < 32 then none
    else (scanString n r).map fun p => (c :: p.1, p.2)

/-- Modelled from the spec: part of `TryHandle`, which is not among the sources.
Skip a non-empty run of digits. -/
def skipDigits (cs : List Char) : Option (List Char) :=
  match cs with
  | c :: _ => if isDigit c then some (cs.dropWhile isDigit) else none
  | [] => none

/-- Modelled from the spec: part of `TryHandle`, which is not among the sources.
Skip a number: optional minus, integer part without a leading zero, optional
fraction, optional exponent. -/
def skipNumber (cs : List Char) : Option (List Char) :=
  let cs := match cs with
    | '-' :: r => r
    | _ => cs
  let afterInt := match cs with
    | '0' :: r => some r
    | _ => skipDigits cs
  let afterFrac := afterInt.bind fun r =>
    match r with
    | '.' :: r2 => skipDigits r2
    | _ => some r
  afterFrac.bind fun r =>
    match r with
    | e :: r2 =>
      if e == 'e' || e == 'E' then
        match r2 with
        | sg :: r3 => if sg == '+' || sg == '-' then skipDigits r3 else skipDigits r2
        | [] => none
      else some r
    | [] => some r

/-- Modelled from the spec: part of `TryHandle`, which is not among the sources.
Skip one value (string, number, `true`, `false`, `null`, object or array) and give
what follows it; `none` when the text does not start with a well-formed value. The
first argument bounds the nesting and the number of members read. -/
def skipValue : Nat → List Char → Option (List Char)
  | 0, _ => none
  | n + 1, cs =>
    match skipWs cs with
    | '"' :: r => (scanString r.length r).map (·.2)
    | 't' :: 'r' :: 'u' :: 'e' :: r => some r
    | 'f' :: 'a' :: 'l' :: 's' :: 'e' :: r => some r
    | 'n' :: 'u' :: 'l' :: 'l' :: r => some r
    | '{' :: r =>
      match skipWs r with
      | '}' :: r2 => some r2
      | '"' :: r2 =>
        -- a member `"key": value`, then what is left of the object read as an object
        (scanString r2.length r2).bind fun key =>
          match skipWs key.2 with
          | ':' :: r3 =>
            (skipValue n r3).bind fun r4 =>
              match skipWs r4 with
              | ',' :: r5 =>
                match skipWs r5 with
                | '"' :: _ => skipValue n ('{' :: r5)
                | _ => none
              | '}' :: r5 => some r5
              | _ => none
          | _ => none
      | _ => none
    | '[' :: r =>
      match skipWs r with
      | ']' :: r2 => some r2
      | _ =>
        (skipValue n r).bind fun r4 =>
          match skipWs r4 with
          | ',' :: r5 =>
            match skipWs r5 with
            | ']' :: _ => none
            | _ => skipValue n ('[' :: r5)
          | ']' :: r5 => some r5
          | _ => none
    | r => skipNumber r

/-- Modelled from the spec: part of `TryHandle`, which is not among the sources.
The members of an object after its opening brace, in line order: each key with its
value, a string as its content and any other value as its literal text. -/
def readMembers : Nat → List Char → Option (List (String × String))
  | 0, _ => none
  | n + 1, cs =>
    match skipWs cs with
    | '}' :: r => if (skipWs r).isEmpty then some [] else none
    | '"' :: r =>
      (scanString r.length r).bind fun key =>
        match skipWs key.2 with
        | ':' :: r3 =>
          let v := skipWs r3
          (skipValue v.length v).bind fun r4 =>
            let text := match v with
              | '"' :: sv => ((scanString sv.length sv).map (·.1)).getD []
              | _ => v.take (v.length - r4.length)
            let tail := match skipWs r4 with
              | ',' :: r5 =>
                match skipWs r5 with
                | '"' :: _ => readMembers n r5
                | _ => none
              | '}' :: r5 => if (skipWs r5).isEmpty then some [] else none
              | _ => none
            tail.map fun ms => (String.mk key.1, String.mk text) :: ms
        | _ => none
    | _ => none

/-- Modelled from the spec: part of `TryHandle`, which is not among the sources.
Parse the full text as one structured object. -/
def decodeObject (d : List Char) : Option (List (String × String)) :=
  match skipWs d with
  | '{' :: r => readMembers r.length.succ r
  | _ => none

/-- Modelled from the spec: part of `TryHandle`, which is not among the sources.
A case-insensitive match of a key against a candidate list. -/
def isCandidate (names : List String) (key : String) : Bool :=
  names.any fun n => n.toList.map Char.toLower == key.toList.map Char.toLower

/-- Modelled from the spec: part of `TryHandle`, which is not among the sources.
An ISO timestamp `YYYY-MM-DDThh:mm:ssZ`, in UTC. -/
def parseISO (value : List Char) : Option Time :=
  (readDate value).bind fun date =>
  (takeChar 'T' date.2.2.2).bind fun v =>
  (readClock v).bind fun clock =>
    if clock.2.2.2 == ['Z'] && 1 ≤ date.2.1 && date.2.1 ≤ 12 && clock.1 < 24 &&
        clock.2.1 < 60 && clock.2.2.1 < 60 && 1 ≤ date.2.2.1 &&
        date.2.2.1 ≤ daysIn date.2.1 date.1 then
      some { year := date.1, month := date.2.1, day := date.2.2.1, hour := clock.1,
             minute := clock.2.1, second := clock.2.2.1, nanosecond := 0, zoneOffset := 0 }
    else none

/-- Modelled from the spec: part of `TryHandle`, which is not among the sources.
Field classification of one decoded member: a key matching a time, message or
level candidate is lifted into that slot, any other pair is added to the fields. -/
def classify (h : JSONHandler) (kv : String × String) : JSONHandler :=
  if isCandidate h.Opts.TimeFields kv.1 then
    match parseISO kv.2.toList with
    | some t => { h with Time := some t }
    | none => { h with Fields := setKey h.Fields kv.1 kv.2 }
  else if isCandidate h.Opts.MessageFields kv.1 then { h with Message := kv.2 }
  else if isCandidate h.Opts.LevelFields kv.1 then { h with Level := String.mk (ToLower kv.2.toList) }
  else { h with Fields := setKey h.Fields kv.1 kv.2 }

/-- Modelled from the spec: the method `TryHandle` of the structured-object dialect is
not among the sources. The full text is parsed as one structured object; on failure
the handler is left as it was; on success the record is rebuilt from the members in
line order by field classification (the previous field values are not touched). -/
def JSONHandler.TryHandle (d : List Char) (h : JSONHandler) : Bool × JSONHandler :=
  match decodeObject d with
  | none => (false, h)
  | some members =>
    (true, members.foldl classify
      { h with Level := "", Time := none, Message := "", Fields := [] })

/-- The function `tryZapDevPrefix`. The method `handler.TryHandle` is not among the
sources and is a parameter: it takes the payload and the handler and gives back its
verdict and the handler as it left it. -/
def tryZapDevPrefix (TryHandle : List Char → JSONHandler → Bool × JSONHandler)
    (d : List Char) (handler : JSONHandler) : Bool × JSONHandler :=
  match FindSubmatch zapDevLogsPrefixRe 5 d with
  | none => (false, handler)
  | some submatches =>
    match TryHandle (submatches.getD 5 []) handler with
    | (false, handler) => (false, handler)
    | (true, handler) =>
      match parseSomeRFC (submatches.getD 1 []) with
      | none => (false, handler)
      | some t =>
        let handler := { handler with Time := some t }
        let handler := { handler with Level := String.mk (ToLower (submatches.getD 2 [])) }
        let handler := handler.setField "caller".toList (submatches.getD 3 [])
        let handler := { handler with Message := String.mk (submatches.getD 4 []) }
        (true, handler)

/-! ## internal/pkg/config/config.go, continued -/

namespace config

/-- The type `ColorMode` (`type ColorMode int`). -/
abbrev ColorMode := Int

/-- The constant `ColorModeOff` (`iota` 0). -/
def ColorModeOff : ColorMode := 0

/-- The constant `ColorModeOn` (`iota` 1). -/
def ColorModeOn : ColorMode := 1

/-- The constant `ColorModeAuto` (`iota` 2). -/
def ColorModeAuto : ColorMode := 2

/-- The call `strings.ToLower(colorMode)`. ASCII letters are lowered and every other
character is kept. Go lowers non-ASCII letters too, but the result then still holds a
non-ASCII character, or an `i` or a `k` (from U+0130 and U+212A, the only non-ASCII
characters whose lowercase is ASCII); no keyword of `GrokColorMode` holds any of them,
so the branch taken is the same. -/
def lowercase (s : String) : String := String.mk (ToLower s.toList)

/-- The function `GrokColorMode`. The result is the mode and the error: `none` for a
nil error, else the message of the error. -/
def GrokColorMode (colorMode : String) : ColorMode × Option String :=
  if lowercase colorMode ∈ ["on", "always", "force", "true", "yes", "1"] then
    (ColorModeOn, none)
  else if lowercase colorMode ∈ ["off", "never", "false", "no", "0"] then
    (ColorModeOff, none)
  else if lowercase colorMode ∈ ["auto", "tty", "maybe", ""] then
    (ColorModeAuto, none)
  else
    (ColorModeAuto, some ("\x27" ++ colorMode ++
      "\x27 is not a color mode (try \x27on\x27, \x27off\x27 or \x27auto\x27)"))

/-- The config in which every optional field is absent. -/
def emptyConfig (version : Int) : Config where
  Version := version
  Skip := none
  Keep := none
  TimeFields := none
  MessageFields := none
  LevelFields := none
  SortLongest := none
  SkipUnchanged := none
  Truncates := none
  LightBg := none
  ColorMode := none
  TruncateLength := none
  TimeFormat := none
  Palette := none
  Interrupt := none

end config

/-! ## Sample inputs -/

/-- A handler that has not seen a line yet, with the default options. -/
def freshHandler : JSONHandler where
  Opts := DefaultOptions
  Level := ""
  Time := none
  Message := ""
  Fields := []
  last := []

/-- A well-formed line: `2021-01-01T00:00:00.000-0700 INFO main.go:10 hello {"a":1}`. -/
def lineWellFormed : List Char :=
  "2021-01-01T00:00:00.000-0700 INFO main.go:10 hello \x7b\"a\":1\x7d".toList

/-- A line whose payload names the caller and the positional slots itself:
`2021-01-01T00:00:00.000-0700 WARN main.go:10 hello {"caller":"x","msg":"m","level":"error","ts":"2024-01-01T00:00:00Z"}`. -/
def lineOverride : List Char :=
  ("2021-01-01T00:00:00.000-0700 WARN main.go:10 hello " ++
    "\x7b\"caller\":\"x\",\"msg\":\"m\",\"level\":\"error\",\"ts\":\"2024-01-01T00:00:00Z\"\x7d").toList

/-- A line with month 13: `2021-13-01T00:00:00.000-0700 INFO main.go:10 hello {"a":1}`. -/
def lineMonth13 : List Char :=
  "2021-13-01T00:00:00.000-0700 INFO main.go:10 hello \x7b\"a\":1\x7d".toList

/-- A line with three spaces between the location and the payload:
`2021-01-01T00:00:00.000-0700 INFO main.go:10   {"a":1}`. -/
def lineBlankMessage : List Char :=
  "2021-01-01T00:00:00.000-0700 INFO main.go:10   \x7b\"a\":1\x7d".toList

/-- A line without payload: `2021-01-01T00:00:00.000-0700 INFO main.go:10 hello`. -/
def lineNoPayload : List Char :=
  "2021-01-01T00:00:00.000-0700 INFO main.go:10 hello".toList

/-- The payload `{"a":1}`. -/
def payloadA : List Char := "\x7b\"a\":1\x7d".toList

/-- A line with the level `PANIC`:
`2021-01-01T00:00:00.000-0700 PANIC main.go:10 hello {"a":1}`. -/
def linePanic : List Char :=
  "2021-01-01T00:00:00.000-0700 PANIC main.go:10 hello \x7b\"a\":1\x7d".toList

/-- A line with the level `abcd`:
`2021-01-01T00:00:00.000-0700 abcd main.go:10 hello {"a":1}`. -/
def lineAbcd : List Char :=
  "2021-01-01T00:00:00.000-0700 abcd main.go:10 hello \x7b\"a\":1\x7d".toList

/-- A line with the level `1234`:
`2021-01-01T00:00:00.000-0700 1234 main.go:10 hello {"a":1}`. -/
def line1234 : List Char :=
  "2021-01-01T00:00:00.000-0700 1234 main.go:10 hello \x7b\"a\":1\x7d".toList

/-- A line with a positive zone offset:
`2021-01-01T00:00:00.000+0100 INFO main.go:10 hello {"a":1}`. -/
def linePlusOffset : List Char :=
  "2021-01-01T00:00:00.000+0100 INFO main.go:10 hello \x7b\"a\":1\x7d".toList

/-- A line with a `Z` suffix on the timestamp:
`2021-01-01T00:00:00.000Z INFO main.go:10 hello {"a":1}`. -/
def lineZulu : List Char :=
  "2021-01-01T00:00:00.000Z INFO main.go:10 hello \x7b\"a\":1\x7d".toList

/-- A line in the tab-separated form, with tabs between the parts:
`2021-01-01T00:00:00.000Z INFO main.go:10 hello {"a":1}`. -/
def lineTabs : List Char :=
  "2021-01-01T00:00:00.000Z\tINFO\tmain.go:10\thello\t\x7b\"a\":1\x7d".toList

/-! ## Auxiliary definitions used in the statements and proofs -/

/-- Whether `n` repetitions respect the upper bound `hi`. -/
def withinMax (hi : Option Nat) (n : Nat) : Bool :=
  match hi with
  | none => true
  | some h => decide (n ≤ h)

/-- Whether an instruction is `^`. -/
def Inst.isBol : Inst → Bool
  | .bol => true
  | _ => false

/-- Whether an instruction takes a fixed number of characters: a literal, or a class
repeated an exact number of times. -/
def Inst.isFixed : Inst → Bool
  | .chr _ => true
  | .rep _ lo (some hi) _ => lo == hi
  | _ => false

/-- Whether a text starts with what a sequence of fixed instructions demands. -/
def matchFixed : List Inst → List Char → Bool
  | [], _ => true
  | .chr c :: is, r =>
    match r with
    | c1 :: cs => c1 == c && matchFixed is cs
    | [] => false
  | .rep cls lo _ _ :: is, r =>
    decide (lo ≤ r.length) && (r.take lo).all cls && matchFixed is (r.drop lo)
  | _ :: _, _ => false

/-- The number of characters a sequence of fixed instructions takes. -/
def widthFixed : List Inst → Nat
  | [] => 0
  | .chr _ :: is => 1 + widthFixed is
  | .rep _ lo _ _ :: is => lo + widthFixed is
  | _ :: is => widthFixed is

/-- The timestamp part of `zapDevLogsPrefixRe`:
`\d{4}-\d{2}-\d{2}T\d{2}:\d{2}:\d{2}\.\d{3}-\d{4}`. -/
def zapTimestamp : List Inst :=
  [ .rep isDigit 4 (some 4) true, .chr '-', .rep isDigit 2 (some 2) true, .chr '-',
    .rep isDigit 2 (some 2) true, .chr 'T', .rep isDigit 2 (some 2) true, .chr ':',
    .rep isDigit 2 (some 2) true, .chr ':', .rep isDigit 2 (some 2) true, .chr '.',
    .rep isDigit 3 (some 3) true, .chr '-', .rep isDigit 4 (some 4) true ]

/-- The part `(?P<jsonbody>{.+})$` of `zapDevLogsPrefixRe`. -/
def zapJson : List Inst :=
  [.cap 10, .chr '{', .rep isDot 1 none true, .chr '}', .cap 11, .eol, .cap 1]

/-- The part of `zapDevLogsPrefixRe` from the `\s+` before the payload. -/
def zapWs4 : List Inst := .rep isSpace 1 none true :: zapJson

/-- The part of `zapDevLogsPrefixRe` from `(?P<message>[^{]+?)`. -/
def zapMessage : List Inst := .cap 8 :: .rep isNotBrace 1 none false :: .cap 9 :: zapWs4

/-- The part of `zapDevLogsPrefixRe` from the `\s+` before the message. -/
def zapWs3 : List Inst := .rep isSpace 1 none true :: zapMessage

/-- The part of `zapDevLogsPrefixRe` from `(?P<location>\S+)`. -/
def zapLocation : List Inst := .cap 6 :: .rep isNonSpace 1 none true :: .cap 7 :: zapWs3

/-- The part of `zapDevLogsPrefixRe` from the `\s+` before the location. -/
def zapWs2 : List Inst := .rep isSpace 1 none true :: zapLocation

/-- The part of `zapDevLogsPrefixRe` from `(?P<level>\w{4,5})`. -/
def zapLevel : List Inst := .cap 4 :: .rep isWord 4 (some 5) true :: .cap 5 :: zapWs2

/-- The part of `zapDevLogsPrefixRe` after the timestamp. -/
def zapWs1 : List Inst := .cap 3 :: .rep isSpace 1 none true :: zapLevel

/-- A text is trimmed of surrounding whitespace: it is non-empty and neither its first
nor its last character is a whitespace character. -/
def isTrimmed (m : List Char) : Bool :=
  match m.head?, m.getLast? with
  | some a, some b => !isSpace a && !isSpace b
  | _, _ => false

/-- How a line splits into the parts of `zapDevLogsPrefixRe`: the timestamp, whitespace,
the level, whitespace, the location, whitespace, the message, whitespace, the payload.
The message is trimmed; when there is nothing but whitespace between the location and
the payload, it is the last but one character of that whitespace. -/
structure ZapSplit (d ts w1 lvl w2 loc w3 msg w4 body : List Char) : Prop where
  line : d = ts ++ (w1 ++ (lvl ++ (w2 ++ (loc ++ (w3 ++ (msg ++ (w4 ++ body)))))))
  ts_shape : matchFixed zapTimestamp ts = true
  ts_length : ts.length = 28
  w1_ne : w1 ≠ []
  w1_space : w1.all isSpace = true
  lvl_length : 4 ≤ lvl.length ∧ lvl.length ≤ 5
  lvl_word : lvl.all isWord = true
  w2_ne : w2 ≠ []
  w2_space : w2.all isSpace = true
  loc_ne : loc ≠ []
  loc_nonSpace : loc.all isNonSpace = true
  w3_ne : w3 ≠ []
  w3_space : w3.all isSpace = true
  msg_ne : msg ≠ []
  msg_notBrace : msg.all isNotBrace = true
  msg_trim : isTrimmed msg = true ∨ ∃ c, msg = [c] ∧ isSpace c = true
  w4_single : ∀ c, msg = [c] → isSpace c = true → w4.length = 1
  w4_ne : w4 ≠ []
  w4_space : w4.all isSpace = true
  body_shape : ∃ inner, body = '{' :: (inner ++ ['}']) ∧ inner ≠ [] ∧ inner.all isDot = true

/-- The shape of the timestamp of `zapDevLogsPrefixRe`, `d` standing for a digit:
`dddd-dd-ddTdd:dd:dd.ddd-dddd`. -/
def timestampShape : List Char :=
  ['d', 'd', 'd', 'd', '-', 'd', 'd', '-', 'd', 'd', 'T', 'd', 'd', ':', 'd', 'd', ':',
   'd', 'd', '.', 'd', 'd', 'd', '-', 'd', 'd', 'd', 'd']

/-- Whether a text has a shape: the same length, an ASCII digit wherever the shape has
`d`, and the character of the shape everywhere else. -/
def hasShape : List Char → List Char → Bool
  | [], [] => true
  | s :: ss, c :: cs => (if s = 'd' then isDigit c else c == s) && hasShape ss cs
  | _, _ => false

/-- The first 23 characters both timestamps share: `\d{4}-\d{2}-\d{2}T\d{2}:\d{2}:\d{2}\.\d{3}`. -/
def timestampCommon : List Inst :=
  [ .rep isDigit 4 (some 4) true, .chr '-', .rep isDigit 2 (some 2) true, .chr '-',
    .rep isDigit 2 (some 2) true, .chr 'T', .rep isDigit 2 (some 2) true, .chr ':',
    .rep isDigit 2 (some 2) true, .chr ':', .rep isDigit 2 (some 2) true, .chr '.',
    .rep isDigit 3 (some 3) true ]

/-- The part of `zapDevDCLogsPrefixRe` after the `Z` of the timestamp. -/
def zapDCAfterZulu : List Inst :=
  [ .cap 3, .chr '\t', .cap 4, .rep isWord 4 (some 5) true, .cap 5, .chr '\t', .cap 6,
    .rep isNonSpace 1 none true, .cap 7, .chr '\t', .cap 8, .rep isNotBrace 1 none false,
    .cap 9, .chr '\t', .cap 10, .chr '{', .rep isDot 1 none true, .chr '}', .cap 11, .eol,
    .cap 1 ]

/-- The number written by the `n` digits that start at index `i` of a text. -/
def digitsAt (t : List Char) (i n : Nat) : Nat := digitsToNat ((t.drop i).take n)

/-- What a timestamp token of the shape `dddd-dd-ddTdd:dd:dd.ddd-dddd` says, read off
by position: the year at index 0, the month at 5, the day at 8, the hour at 11, the
minute at 14, the second at 17, the milliseconds at 20, the sign of the zone at 23, its
hours at 24 and its minutes at 26. -/
def timestampRaw (t : List Char) : RawTime where
  year := digitsAt t 0 4
  month := digitsAt t 5 2
  day := digitsAt t 8 2
  hour := digitsAt t 11 2
  minute := digitsAt t 14 2
  second := digitsAt t 17 2
  millis := digitsAt t 20 3
  sign := t.getD 23 '-'
  zoneHour := digitsAt t 24 2
  zoneMinute := digitsAt t 26 2

/-- The instant a timestamp token of the shape `dddd-dd-ddTdd:dd:dd.ddd-dddd` denotes:
the date and clock as written, the milliseconds as nanoseconds, and the zone offset
`-(hh * 3600 + mm * 60)` seconds for the token's `-hhmm`. -/
def timestampInstant (t : List Char) : Time where
  year := digitsAt t 0 4
  month := digitsAt t 5 2
  day := digitsAt t 8 2
  hour := digitsAt t 11 2
  minute := digitsAt t 14 2
  second := digitsAt t 17 2
  nanosecond := digitsAt t 20 3 * 1000000
  zoneOffset := -(((digitsAt t 24 2 * 3600 + digitsAt t 26 2 * 60 : Nat) : Int))

/-- Whether the instant of a timestamp token is a date and time of day: month 1 to 12,
day within the month, hour below 24, minute and second below 60, and a zone offset of
at most 24 hours and 60 minutes. -/
def timestampValid (t : List Char) : Bool :=
  1 ≤ digitsAt t 5 2 && digitsAt t 5 2 ≤ 12 && 1 ≤ digitsAt t 8 2 &&
  digitsAt t 8 2 ≤ daysIn (digitsAt t 5 2) (digitsAt t 0 4) && digitsAt t 11 2 < 24 &&
  digitsAt t 14 2 < 60 && digitsAt t 17 2 < 60 && digitsAt t 24 2 ≤ 24 &&
  digitsAt t 26 2 ≤ 60

/-! ## Theorems: handler.go -/

/-- C1 (fails on the code). `HandlerOptionsFrom` writes through the shared pointer
`DefaultOptions`: right after package initialisation an absent list does come back as
the built-in default, but after a call with `TimeFields = ["x"]` a call with no
`TimeFields` returns `["x"]`, not the built-in `[time, ts, @timestamp, timestamp]`. -/
theorem C1_absent_list_after_earlier_call :
    (HandlerOptionsFrom { config.DefaultConfig with TimeFields := none }
        initialDefaultOptions).1.TimeFields = ["time", "ts", "@timestamp", "timestamp"] ∧
    (HandlerOptionsFrom { config.DefaultConfig with TimeFields := none }
        (afterCalls [{ config.DefaultConfig with TimeFields := some ["x"] }]
          initialDefaultOptions)).1.TimeFields = ["x"] ∧
    (HandlerOptionsFrom { config.DefaultConfig with TimeFields := none }
        (afterCalls [{ config.DefaultConfig with TimeFields := some ["x"] }]
          initialDefaultOptions)).1.TimeFields ≠ DefaultOptions.TimeFields := by
  decide

/-- C2. Each candidate list that is present in `cfg` is returned by
`HandlerOptionsFrom cfg` exactly as given (same elements, same order), whatever
`DefaultOptions` held before the call. -/
theorem C2_present_lists_returned_as_given (cfg : config.Config)
    (defaultOptions : HandlerOptions) :
    (∀ v, cfg.TimeFields = some v →
      (HandlerOptionsFrom cfg defaultOptions).1.TimeFields = v) ∧
    (∀ v, cfg.MessageFields = some v →
      (HandlerOptionsFrom cfg defaultOptions).1.MessageFields = v) ∧
    (∀ v, cfg.LevelFields = some v →
      (HandlerOptionsFrom cfg defaultOptions).1.LevelFields = v) := by
  refine ⟨?_, ?_, ?_⟩ <;> intro v hv <;> unfold HandlerOptionsFrom <;>
    cases h1 : cfg.TimeFields <;> cases h2 : cfg.MessageFields <;>
    cases h3 : cfg.LevelFields <;> simp_all

/-- C2 at a concrete input: a config with all three lists set, against a
`DefaultOptions` that an earlier call has overwritten. -/
theorem C2_present_lists_returned_as_given_witness :
    (HandlerOptionsFrom
      { config.DefaultConfig with
          TimeFields := some ["t2", "t1"], MessageFields := some ["m"], LevelFields := some [] }
      { TimeFields := ["x"], MessageFields := ["y"], LevelFields := ["z"] }).1.TimeFields
        = ["t2", "t1"] ∧
    (HandlerOptionsFrom
      { config.DefaultConfig with
          TimeFields := some ["t2", "t1"], MessageFields := some ["m"], LevelFields := some [] }
      { TimeFields := ["x"], MessageFields := ["y"], LevelFields := ["z"] }).1.MessageFields
        = ["m"] ∧
    (HandlerOptionsFrom
      { config.DefaultConfig with
          TimeFields := some ["t2", "t1"], MessageFields := some ["m"], LevelFields := some [] }
      { TimeFields := ["x"], MessageFields := ["y"], LevelFields := ["z"] }).1.LevelFields
        = [] :=
  ⟨(C2_present_lists_returned_as_given _ _).1 _ rfl,
    (C2_present_lists_returned_as_given _ _).2.1 _ rfl,
    (C2_present_lists_returned_as_given _ _).2.2 _ rfl⟩

/-! ## Theorems: config.go -/

/-- A conditional between two configs is the config of the field-wise conditionals. -/
theorem config.ite_mk (c : Prop) [Decidable c]
    (a1 b1 : Int) (a2 b2 a3 b3 a4 b4 a5 b5 a6 b6 : Option (List String))
    (a7 b7 a8 b8 a9 b9 a10 b10 : Option Bool) (a11 b11 : Option String)
    (a12 b12 : Option Int) (a13 b13 : Option String) (a14 b14 : Option config.TextPalette)
    (a15 b15 : Option Bool) :
    (if c then config.Config.mk a1 a2 a3 a4 a5 a6 a7 a8 a9 a10 a11 a12 a13 a14 a15
      else config.Config.mk b1 b2 b3 b4 b5 b6 b7 b8 b9 b10 b11 b12 b13 b14 b15)
    = config.Config.mk (if c then a1 else b1) (if c then a2 else b2) (if c then a3 else b3)
        (if c then a4 else b4) (if c then a5 else b5) (if c then a6 else b6)
        (if c then a7 else b7) (if c then a8 else b8) (if c then a9 else b9)
        (if c then a10 else b10) (if c then a11 else b11) (if c then a12 else b12)
        (if c then a13 else b13) (if c then a14 else b14) (if c then a15 else b15) := by
  split <;> rfl

/-- The result of `populateEmpty`, field by field. -/
theorem config.populateEmpty_eq (cfg dflt : config.Config) :
    cfg.populateEmpty dflt =
      { Version := cfg.Version
        Skip := if cfg.Skip.isNone && cfg.Keep.isNone then dflt.Skip else cfg.Skip
        Keep := if cfg.Skip.isNone && cfg.Keep.isNone then dflt.Keep else cfg.Keep
        TimeFields := if cfg.TimeFields.isSome then cfg.TimeFields else dflt.TimeFields
        MessageFields :=
          if cfg.MessageFields.isSome then cfg.MessageFields else dflt.MessageFields
        LevelFields := if cfg.LevelFields.isSome then cfg.LevelFields else dflt.LevelFields
        SortLongest := if cfg.SortLongest.isSome then cfg.SortLongest else dflt.SortLongest
        SkipUnchanged :=
          if cfg.SkipUnchanged.isSome then cfg.SkipUnchanged else dflt.SkipUnchanged
        Truncates := if cfg.Truncates.isSome then cfg.Truncates else dflt.Truncates
        LightBg := if cfg.LightBg.isSome then cfg.LightBg else dflt.LightBg
        ColorMode := if cfg.ColorMode.isSome then cfg.ColorMode else dflt.ColorMode
        TruncateLength :=
          if cfg.TruncateLength.isSome then cfg.TruncateLength else dflt.TruncateLength
        TimeFormat := if cfg.TimeFormat.isSome then cfg.TimeFormat else dflt.TimeFormat
        Palette := if cfg.Palette.isSome then cfg.Palette else dflt.Palette
        Interrupt := cfg.Interrupt } := by
  obtain ⟨v, sk, kp, tf, mf, lf, sl, su, tr, lb, cm, tl, tfm, pl, it⟩ := cfg
  obtain ⟨v2, sk2, kp2, tf2, mf2, lf2, sl2, su2, tr2, lb2, cm2, tl2, tfm2, pl2, it2⟩ := dflt
  simp only [config.Config.populateEmpty, config.ite_mk, ite_self]
  congr 1
  · cases tf <;> cases tf2 <;> rfl
  · cases mf <;> cases mf2 <;> rfl
  · cases lf <;> cases lf2 <;> rfl
  · cases sl <;> cases sl2 <;> rfl
  · cases su <;> cases su2 <;> rfl
  · cases tr <;> cases tr2 <;> rfl
  · cases lb <;> cases lb2 <;> rfl
  · cases cm <;> cases cm2 <;> rfl
  · cases tl <;> cases tl2 <;> rfl
  · cases tfm <;> cases tfm2 <;> rfl
  · cases pl <;> cases pl2 <;> rfl

/-- C9. `populateEmpty` resolves each of the eleven listed options independently: the
value of `cfg` when `cfg` sets it, otherwise the value of `dflt`; `Version` is always
that of `cfg`. -/
theorem C9_populateEmpty_resolves_each_option (cfg dflt : config.Config) :
    (cfg.populateEmpty dflt).Version = cfg.Version ∧
    (cfg.populateEmpty dflt).TimeFields
      = (if cfg.TimeFields.isSome then cfg.TimeFields else dflt.TimeFields) ∧
    (cfg.populateEmpty dflt).MessageFields
      = (if cfg.MessageFields.isSome then cfg.MessageFields else dflt.MessageFields) ∧
    (cfg.populateEmpty dflt).LevelFields
      = (if cfg.LevelFields.isSome then cfg.LevelFields else dflt.LevelFields) ∧
    (cfg.populateEmpty dflt).SortLongest
      = (if cfg.SortLongest.isSome then cfg.SortLongest else dflt.SortLongest) ∧
    (cfg.populateEmpty dflt).SkipUnchanged
      = (if cfg.SkipUnchanged.isSome then cfg.SkipUnchanged else dflt.SkipUnchanged) ∧
    (cfg.populateEmpty dflt).Truncates
      = (if cfg.Truncates.isSome then cfg.Truncates else dflt.Truncates) ∧
    (cfg.populateEmpty dflt).LightBg
      = (if cfg.LightBg.isSome then cfg.LightBg else dflt.LightBg) ∧
    (cfg.populateEmpty dflt).ColorMode
      = (if cfg.ColorMode.isSome then cfg.ColorMode else dflt.ColorMode) ∧
    (cfg.populateEmpty dflt).TruncateLength
      = (if cfg.TruncateLength.isSome then cfg.TruncateLength else dflt.TruncateLength) ∧
    (cfg.populateEmpty dflt).TimeFormat
      = (if cfg.TimeFormat.isSome then cfg.TimeFormat else dflt.TimeFormat) ∧
    (cfg.populateEmpty dflt).Palette
      = (if cfg.Palette.isSome then cfg.Palette else dflt.Palette) := by
  rw [config.populateEmpty_eq]
  exact ⟨rfl, rfl, rfl, rfl, rfl, rfl, rfl, rfl, rfl, rfl, rfl, rfl⟩

/-- C10. `populateEmpty` takes the `(Skip, Keep)` pair from one side only: it is the
pair of `cfg` whenever `cfg` sets at least one of the two, and the pair of `dflt` when
`cfg` sets neither. Consequently, if in `cfg` and in `dflt` at most one of `Skip` and
`Keep` is a non-empty list, then so it is in the result. -/
theorem C10_populateEmpty_skip_keep_pair (cfg dflt : config.Config) :
    (cfg.Skip.isSome = true ∨ cfg.Keep.isSome = true →
      ((cfg.populateEmpty dflt).Skip, (cfg.populateEmpty dflt).Keep) = (cfg.Skip, cfg.Keep)) ∧
    (cfg.Skip = none ∧ cfg.Keep = none →
      ((cfg.populateEmpty dflt).Skip, (cfg.populateEmpty dflt).Keep)
        = (dflt.Skip, dflt.Keep)) ∧
    (¬ (config.nonEmptyList cfg.Skip = true ∧ config.nonEmptyList cfg.Keep = true) →
      ¬ (config.nonEmptyList dflt.Skip = true ∧ config.nonEmptyList dflt.Keep = true) →
      ¬ (config.nonEmptyList (cfg.populateEmpty dflt).Skip = true ∧
          config.nonEmptyList (cfg.populateEmpty dflt).Keep = true)) := by
  rw [config.populateEmpty_eq]
  cases hs : cfg.Skip <;> cases hk : cfg.Keep <;> simp <;> exact fun a _ => a

/-- C10 at concrete inputs: a config that sets only `Keep` keeps its own pair against
defaults that set `Skip`; a config that sets neither takes the pair of the defaults. -/
theorem C10_populateEmpty_skip_keep_pair_witness :
    (({ config.DefaultConfig with Skip := none, Keep := some ["k"] } : config.Config).populateEmpty
        { config.DefaultConfig with Skip := some ["s"], Keep := some [] }).Skip = none ∧
    (({ config.DefaultConfig with Skip := none, Keep := none } : config.Config).populateEmpty
        { config.DefaultConfig with Skip := some ["s"], Keep := some [] }).Skip = some ["s"] := by
  have h1 := (C10_populateEmpty_skip_keep_pair
    { config.DefaultConfig with Skip := none, Keep := some ["k"] }
    { config.DefaultConfig with Skip := some ["s"], Keep := some [] }).1 (Or.inr rfl)
  have h2 := (C10_populateEmpty_skip_keep_pair
    { config.DefaultConfig with Skip := none, Keep := none }
    { config.DefaultConfig with Skip := some ["s"], Keep := some [] }).2.1 ⟨rfl, rfl⟩
  exact ⟨congrArg Prod.fst h1, congrArg Prod.fst h2⟩

/-! ## The matcher: repetitions -/

theorem runRep_cons_of_not {α : Type} (cls : Char → Bool) (g : Bool)
    (k : Nat → List Char → Option α) (c : Char) (cs : List Char) (lo : Nat)
    (hi : Option Nat) (pos : Nat) (hc : cls c = false) :
    runRep cls g k (c :: cs) lo hi pos = if lo = 0 then k pos (c :: cs) else none := by
  cases g <;> simp [runRep, hc]

/-- A repetition whose continuation rejects every text that starts with a character of
the class takes the whole run of class characters. -/
theorem runRep_forced {α : Type} (cls : Char → Bool) (g : Bool)
    (k : Nat → List Char → Option α)
    (hk : ∀ p c cs, cls c = true → k p (c :: cs) = none) :
    ∀ (rest : List Char) (lo : Nat) (hi : Option Nat) (pos : Nat),
      runRep cls g k rest lo hi pos =
        if lo ≤ (rest.takeWhile cls).length ∧ withinMax hi (rest.takeWhile cls).length = true
        then k (pos + (rest.takeWhile cls).length) (rest.dropWhile cls) else none := by
  intro rest
  induction rest with
  | nil =>
    intro lo hi pos
    cases hi <;> simp [runRep, withinMax]
  | cons c cs ih =>
    intro lo hi pos
    by_cases hc : cls c = true
    · have hstop : (if lo = 0 then k pos (c :: cs) else none) = none := by
        split
        · exact hk pos c cs hc
        · rfl
      simp only [runRep, hstop, hc, List.takeWhile_cons, List.dropWhile_cons, if_true,
        Bool.true_and, List.length_cons]
      have hres : ∀ (x : Option α), (if g = true then x.orElse (fun _ => none)
          else (none : Option α).orElse (fun _ => x)) = x := by
        intro x; cases g <;> cases x <;> simp
      rw [hres]
      cases hi with
      | none =>
        simp only [withinMax, Option.map_none', bne_iff_ne, ne_eq, not_false_eq_true,
          if_true, and_true, reduceCtorEq]
        rw [ih]
        simp only [withinMax, and_true]
        have e : pos + 1 + (List.takeWhile cls cs).length
            = pos + ((List.takeWhile cls cs).length + 1) := by omega
        rw [e]
        by_cases h1 : lo ≤ (List.takeWhile cls cs).length + 1
        · have h2 : lo - 1 ≤ (List.takeWhile cls cs).length := by omega
          simp [h1, h2]
        · have h2 : ¬ lo - 1 ≤ (List.takeWhile cls cs).length := by omega
          simp [h1, h2]
      | some h =>
        by_cases h0 : h = 0
        · subst h0
          simp [withinMax]
        · have hne : (some h != some 0) = true := by simp [h0]
          simp only [hne, if_true, Option.map_some']
          rw [ih]
          simp only [withinMax, decide_eq_true_eq]
          have e : pos + 1 + (List.takeWhile cls cs).length
              = pos + ((List.takeWhile cls cs).length + 1) := by omega
          rw [e]
          by_cases h1 : lo ≤ (List.takeWhile cls cs).length + 1 ∧
              (List.takeWhile cls cs).length + 1 ≤ h
          · have h2 : lo - 1 ≤ (List.takeWhile cls cs).length ∧
                (List.takeWhile cls cs).length ≤ h - 1 := by omega
            rw [if_pos h1, if_pos h2]
          · have h2 : ¬ (lo - 1 ≤ (List.takeWhile cls cs).length ∧
                (List.takeWhile cls cs).length ≤ h - 1) := by omega
            rw [if_neg h1, if_neg h2]
    · have hc2 : cls c = false := by simpa using hc
      rw [runRep_cons_of_not cls g k c cs lo hi pos hc2]
      cases hi <;> simp [hc2, withinMax]

theorem orElse_eq_none {α : Type} (a b : Option α) :
    (a.orElse fun _ => b) = none ↔ a = none ∧ b = none := by
  cases a <;> simp

theorem runRep_cons_of {α : Type} (cls : Char → Bool) (g : Bool)
    (k : Nat → List Char → Option α) (c : Char) (cs : List Char) (lo : Nat)
    (pos : Nat) (hc : cls c = true) :
    runRep cls g k (c :: cs) lo none pos =
      if g = true then
        (runRep cls g k cs (lo - 1) none (pos + 1)).orElse
          (fun _ => if lo = 0 then k pos (c :: cs) else none)
      else
        (if lo = 0 then k pos (c :: cs) else none).orElse
          (fun _ => runRep cls g k cs (lo - 1) none (pos + 1)) := by
  simp [runRep, hc]

/-- An unbounded repetition that fails: the continuation fails after every admissible
number of characters. -/
theorem runRep_eq_none {α : Type} (cls : Char → Bool) (g : Bool)
    (k : Nat → List Char → Option α) :
    ∀ (rest : List Char) (lo pos : Nat), runRep cls g k rest lo none pos = none →
      ∀ n, lo ≤ n → n ≤ (rest.takeWhile cls).length → k (pos + n) (rest.drop n) = none := by
  intro rest
  induction rest with
  | nil =>
    intro lo pos h n hlo hn
    have hn0 : n = 0 := by simpa using hn
    subst hn0
    have hl0 : lo = 0 := by omega
    subst hl0
    simpa [runRep] using h
  | cons c cs ih =>
    intro lo pos h n hlo hn
    by_cases hc : cls c = true
    · rw [runRep_cons_of cls g k c cs lo pos hc] at h
      have hboth : runRep cls g k cs (lo - 1) none (pos + 1) = none ∧
          (if lo = 0 then k pos (c :: cs) else none) = none := by
        cases g
        · simp only [Bool.false_eq_true, if_false] at h
          exact ((orElse_eq_none _ _).1 h).symm
        · simp only [if_true] at h
          exact (orElse_eq_none _ _).1 h
      cases n with
      | zero =>
        have hl0 : lo = 0 := by omega
        subst hl0
        simpa using hboth.2
      | succ n1 =>
        have hn1 : n1 ≤ (cs.takeWhile cls).length := by
          simpa [List.takeWhile_cons, hc] using hn
        have := ih (lo - 1) (pos + 1) hboth.1 n1 (by omega) hn1
        have e : pos + (n1 + 1) = pos + 1 + n1 := by omega
        rw [e]
        simpa using this
    · have hc2 : cls c = false := by simpa using hc
      rw [runRep_cons_of_not cls g k c cs lo none pos hc2] at h
      have hn0 : n = 0 := by simpa [List.takeWhile_cons, hc2] using hn
      subst hn0
      have hl0 : lo = 0 := by omega
      subst hl0
      simpa using h

/-- A greedy unbounded repetition that succeeds: the continuation succeeds after some
admissible number of characters and fails after every larger admissible number. -/
theorem runRep_greedy {α : Type} (cls : Char → Bool) (k : Nat → List Char → Option α) :
    ∀ (rest : List Char) (lo pos : Nat) (r : α),
      runRep cls true k rest lo none pos = some r →
      ∃ n, lo ≤ n ∧ n ≤ (rest.takeWhile cls).length ∧ k (pos + n) (rest.drop n) = some r ∧
        ∀ m, n < m → m ≤ (rest.takeWhile cls).length → k (pos + m) (rest.drop m) = none := by
  intro rest
  induction rest with
  | nil =>
    intro lo pos r h
    refine ⟨0, ?_, by simp, ?_, ?_⟩
    · by_contra hlo
      have : ¬ lo = 0 := by omega
      simp [runRep, this] at h
    · by_cases hlo : lo = 0
      · simpa [runRep, hlo] using h
      · simp [runRep, hlo] at h
    · intro m h1 h2
      simp at h2
      omega
  | cons c cs ih =>
    intro lo pos r h
    by_cases hc : cls c = true
    · rw [runRep_cons_of cls true k c cs lo pos hc] at h
      simp only [if_true] at h
      cases hmore : runRep cls true k cs (lo - 1) none (pos + 1) with
      | some r1 =>
        rw [hmore] at h
        have hr : r1 = r := by simpa using h
        subst hr
        obtain ⟨n, h1, h2, h3, h4⟩ := ih (lo - 1) (pos + 1) r1 hmore
        refine ⟨n + 1, by omega, by simpa [List.takeWhile_cons, hc] using h2, ?_, ?_⟩
        · have e : pos + (n + 1) = pos + 1 + n := by omega
          rw [e]
          simpa using h3
        · intro m hm1 hm2
          cases m with
          | zero => omega
          | succ m1 =>
            have hm3 : m1 ≤ (cs.takeWhile cls).length := by
              simpa [List.takeWhile_cons, hc] using hm2
            have := h4 m1 (by omega) hm3
            have e : pos + (m1 + 1) = pos + 1 + m1 := by omega
            rw [e]
            simpa using this
      | none =>
        rw [hmore] at h
        simp only [Option.orElse] at h
        have hlo : lo = 0 := by
          by_contra hlo
          simp [hlo] at h
        subst hlo
        simp only [if_true] at h
        refine ⟨0, le_refl _, Nat.zero_le _, by simpa using h, ?_⟩
        intro m hm1 hm2
        cases m with
        | zero => omega
        | succ m1 =>
          have hm3 : m1 ≤ (cs.takeWhile cls).length := by
            simpa [List.takeWhile_cons, hc] using hm2
          have := runRep_eq_none cls true k cs 0 (pos + 1) hmore m1 (Nat.zero_le _) hm3
          have e : pos + (m1 + 1) = pos + 1 + m1 := by omega
          rw [e]
          simpa using this
    · have hc2 : cls c = false := by simpa using hc
      rw [runRep_cons_of_not cls true k c cs lo none pos hc2] at h
      have hlo : lo = 0 := by
        by_contra hlo
        simp [hlo] at h
      subst hlo
      simp only [if_true] at h
      refine ⟨0, le_refl _, Nat.zero_le _, by simpa using h, ?_⟩
      intro m hm1 hm2
      simp [List.takeWhile_cons, hc2] at hm2
      omega

/-- A non-greedy unbounded repetition that succeeds: the continuation succeeds after
some admissible number of characters and fails after every smaller admissible number. -/
theorem runRep_lazy {α : Type} (cls : Char → Bool) (k : Nat → List Char → Option α) :
    ∀ (rest : List Char) (lo pos : Nat) (r : α),
      runRep cls false k rest lo none pos = some r →
      ∃ n, lo ≤ n ∧ n ≤ (rest.takeWhile cls).length ∧ k (pos + n) (rest.drop n) = some r ∧
        ∀ m, lo ≤ m → m < n → k (pos + m) (rest.drop m) = none := by
  intro rest
  induction rest with
  | nil =>
    intro lo pos r h
    refine ⟨0, ?_, by simp, ?_, ?_⟩
    · by_contra hlo
      have : ¬ lo = 0 := by omega
      simp [runRep, this] at h
    · by_cases hlo : lo = 0
      · simpa [runRep, hlo] using h
      · simp [runRep, hlo] at h
    · intro m h1 h2
      omega
  | cons c cs ih =>
    intro lo pos r h
    by_cases hc : cls c = true
    · rw [runRep_cons_of cls false k c cs lo pos hc] at h
      simp only [Bool.false_eq_true, if_false] at h
      cases hstop : (if lo = 0 then k pos (c :: cs) else none) with
      | some r1 =>
        rw [hstop] at h
        have hr : r1 = r := by simpa using h
        subst hr
        have hlo : lo = 0 := by
          by_contra hlo
          simp [hlo] at hstop
        subst hlo
        simp only [if_true] at hstop
        refine ⟨0, le_refl _, Nat.zero_le _, by simpa using hstop, ?_⟩
        intro m h1 h2
        omega
      | none =>
        rw [hstop] at h
        simp only [Option.orElse] at h
        obtain ⟨n, h1, h2, h3, h4⟩ := ih (lo - 1) (pos + 1) r h
        refine ⟨n + 1, by omega, by simpa [List.takeWhile_cons, hc] using h2, ?_, ?_⟩
        · have e : pos + (n + 1) = pos + 1 + n := by omega
          rw [e]
          simpa using h3
        · intro m hm1 hm2
          cases m with
          | zero =>
            have hlo : lo = 0 := by omega
            subst hlo
            simpa using hstop
          | succ m1 =>
            have := h4 m1 (by omega) (by omega)
            have e : pos + (m1 + 1) = pos + 1 + m1 := by omega
            rw [e]
            simpa using this
    · have hc2 : cls c = false := by simpa using hc
      rw [runRep_cons_of_not cls false k c cs lo none pos hc2] at h
      have hlo : lo = 0 := by
        by_contra hlo
        simp [hlo] at h
      subst hlo
      simp only [if_true] at h
      refine ⟨0, le_refl _, Nat.zero_le _, by simpa using h, ?_⟩
      intro m hm1 hm2
      omega

theorem zapDevLogsPrefixRe_eq :
    zapDevLogsPrefixRe = [.cap 0, .bol, .cap 2] ++ zapTimestamp ++ zapWs1 := rfl

theorem isSome_orElse {α : Type} (a b : Option α) :
    (a.orElse fun _ => b).isSome = (a.isSome || b.isSome) := by
  cases a <;> simp

/-- Whether a repetition succeeds depends on the continuation only through whether the
continuation succeeds. -/
theorem runRep_isSome_congr {α β : Type} (cls : Char → Bool) (g : Bool)
    (k : Nat → List Char → Option α) (k2 : Nat → List Char → Option β)
    (h : ∀ p p2 r, (k p r).isSome = (k2 p2 r).isSome) :
    ∀ (rest : List Char) (lo : Nat) (hi : Option Nat) (pos pos2 : Nat),
      (runRep cls g k rest lo hi pos).isSome = (runRep cls g k2 rest lo hi pos2).isSome := by
  intro rest
  induction rest with
  | nil =>
    intro lo hi pos pos2
    simp only [runRep]
    split
    · exact h _ _ _
    · rfl
  | cons c cs ih =>
    intro lo hi pos pos2
    simp only [runRep]
    have hs : (if lo = 0 then k pos (c :: cs) else none).isSome
        = (if lo = 0 then k2 pos2 (c :: cs) else none).isSome := by
      split
      · exact h _ _ _
      · rfl
    have hm : (if (cls c && hi != some 0) = true then
          runRep cls g k cs (lo - 1) (Option.map (fun x => x - 1) hi) (pos + 1) else none).isSome
        = (if (cls c && hi != some 0) = true then
          runRep cls g k2 cs (lo - 1) (Option.map (fun x => x - 1) hi) (pos2 + 1)
            else none).isSome := by
      split
      · exact ih _ _ _ _
      · rfl
    cases g
    · simp only [Bool.false_eq_true, if_false, isSome_orElse, hs, hm]
    · simp only [if_true, isSome_orElse, hs, hm]

/-- Whether a pattern without `^` matches at a position does not depend on the position
nor on the capture slots. -/
theorem run_isSome_indep : ∀ (prog : List Inst), prog.all (fun i => !i.isBol) = true →
    ∀ (p p2 : Nat) (r : List Char) (s s2 : Slots),
      (run prog p r s).isSome = (run prog p2 r s2).isSome := by
  intro prog
  induction prog with
  | nil => intro _ p p2 r s s2; simp [run]
  | cons i is ih =>
    intro hall p p2 r s s2
    simp only [List.all_cons, Bool.and_eq_true] at hall
    have ih2 := ih hall.2
    cases i with
    | bol => simp [Inst.isBol] at hall
    | eol =>
      simp only [run]
      split
      · exact ih2 _ _ _ _ _
      · rfl
    | cap n => simp only [run]; exact ih2 _ _ _ _ _
    | chr c =>
      cases r with
      | nil => simp [run]
      | cons c1 cs =>
        simp only [run]
        split
        · exact ih2 _ _ _ _ _
        · rfl
    | rep cls lo hi g =>
      simp only [run]
      exact runRep_isSome_congr cls g _ _ (fun a b c => ih2 a b c s s2) r lo hi p p2

/-- A class repeated an exact number of times takes that many characters, all of the
class. -/
theorem runRep_fixed {α : Type} (cls : Char → Bool) (g : Bool)
    (k : Nat → List Char → Option α) :
    ∀ (rest : List Char) (n pos : Nat),
      runRep cls g k rest n (some n) pos =
        if (decide (n ≤ rest.length) && (rest.take n).all cls) = true
        then k (pos + n) (rest.drop n) else none := by
  intro rest
  induction rest with
  | nil =>
    intro n pos
    cases n <;> simp [runRep]
  | cons c cs ih =>
    intro n pos
    cases n with
    | zero => cases g <;> simp [runRep]
    | succ n1 =>
      have e : pos + 1 + n1 = pos + (n1 + 1) := by omega
      by_cases hc : cls c = true
      · cases g <;> simp [runRep, hc, ih, e]
      · have hc2 : cls c = false := by simpa using hc
        cases g <;> simp [runRep, hc2]

/-- A sequence of fixed instructions in front of a pattern. -/
theorem run_fixed_append : ∀ (pre : List Inst), pre.all Inst.isFixed = true →
    ∀ (post : List Inst) (p : Nat) (r : List Char) (s : Slots),
      run (pre ++ post) p r s =
        if matchFixed pre r = true
        then run post (p + widthFixed pre) (r.drop (widthFixed pre)) s else none := by
  intro pre
  induction pre with
  | nil => intro _ post p r s; simp [matchFixed, widthFixed]
  | cons i is ih =>
    intro hall post p r s
    simp only [List.all_cons, Bool.and_eq_true] at hall
    have ih2 := ih hall.2
    cases i with
    | bol => simp [Inst.isFixed] at hall
    | eol => simp [Inst.isFixed] at hall
    | cap n => simp [Inst.isFixed] at hall
    | chr c =>
      cases r with
      | nil => simp [run, matchFixed]
      | cons c1 cs =>
        by_cases hc : c1 = c
        · subst hc
          have e : p + 1 + widthFixed is = p + (1 + widthFixed is) := by omega
          have e2 : List.drop (1 + widthFixed is) (c1 :: cs) = List.drop (widthFixed is) cs := by
            rw [Nat.add_comm]; rfl
          simp [run, matchFixed, widthFixed, ih2, e, e2]
        · simp [run, matchFixed, hc]
    | rep cls lo hi g =>
      cases hi with
      | none => simp [Inst.isFixed] at hall
      | some h =>
        have hh : lo = h := by simpa [Inst.isFixed] using hall.1
        subst hh
        simp only [List.cons_append, run, runRep_fixed, matchFixed, widthFixed, List.append_eq,
          ih2]
        have e : p + lo + widthFixed is = p + (lo + widthFixed is) := by omega
        have e2 : List.drop (widthFixed is) (List.drop lo r)
            = List.drop (lo + widthFixed is) r := by
          rw [List.drop_drop, Nat.add_comm]
        rw [e, e2]
        cases h1 : (decide (lo ≤ r.length) && (List.take lo r).all cls) <;> simp

/-- A pattern that begins with `^` matches nowhere but at position 0. -/
theorem search_bol (post : List Inst) : ∀ (r : List Char) (pos : Nat), 0 < pos →
    search (.cap 0 :: .bol :: post) pos r = none := by
  intro r
  induction r with
  | nil =>
    intro pos hpos
    have : pos ≠ 0 := by omega
    simp [search, run, this]
  | cons c cs ih =>
    intro pos hpos
    have : pos ≠ 0 := by omega
    simp [search, run, this, ih (pos + 1) (by omega)]

theorem search_zero_bol (post : List Inst) (d : List Char) :
    search (.cap 0 :: .bol :: post) 0 d = run (.cap 0 :: .bol :: post) 0 d (fun _ => 0) := by
  cases d with
  | nil => simp [search]
  | cons c cs =>
    simp only [search]
    cases h : run (.cap 0 :: .bol :: post) 0 (c :: cs) (fun _ => 0) with
    | some s => rfl
    | none => simp [search_bol post cs 1 (by omega)]

/-! ## The pattern `zapDevLogsPrefixRe` -/

theorem isWord_of_isSpace (c : Char) (h : isSpace c = true) : isWord c = false := by
  simp only [isSpace, Bool.or_eq_true, beq_iff_eq] at h
  rcases h with (((h | h) | h) | h) | h <;> subst h <;> decide

theorem isSpace_of_isWord (c : Char) (h : isWord c = true) : isSpace c = false := by
  cases hs : isSpace c
  · rfl
  · rw [isWord_of_isSpace c hs] at h
    exact absurd h (by decide)

theorem isNotBrace_of_isSpace (c : Char) (h : isSpace c = true) : isNotBrace c = true := by
  simp only [isSpace, Bool.or_eq_true, beq_iff_eq] at h
  rcases h with (((h | h) | h) | h) | h <;> subst h <;> decide

theorem take_all_of_le_takeWhile (cls : Char → Bool) :
    ∀ (l : List Char) (n : Nat), n ≤ (l.takeWhile cls).length → (l.take n).all cls = true := by
  intro l
  induction l with
  | nil => intro n _; simp
  | cons c cs ih =>
    intro n hn
    cases n with
    | zero => simp
    | succ n1 =>
      by_cases hc : cls c = true
      · have : n1 ≤ (cs.takeWhile cls).length := by
          simpa [List.takeWhile_cons, hc] using hn
        simp [hc, ih n1 this]
      · have hc2 : cls c = false := by simpa using hc
        simp [List.takeWhile_cons, hc2] at hn

theorem le_length_of_le_takeWhile (cls : Char → Bool) (l : List Char) (n : Nat)
    (hn : n ≤ (l.takeWhile cls).length) : n ≤ l.length := by
  have h := congrArg List.length (List.takeWhile_append_dropWhile cls l)
  simp only [List.length_append] at h
  omega

theorem takeWhile_all (cls : Char → Bool) (l : List Char) : (l.takeWhile cls).all cls = true := by
  induction l with
  | nil => simp
  | cons c cs ih =>
    by_cases hc : cls c = true
    · simp [List.takeWhile_cons, hc, ih]
    · have hc2 : cls c = false := by simpa using hc
      simp [List.takeWhile_cons, hc2]

theorem run_zapJson_of_ne (p : Nat) (c : Char) (cs : List Char) (s : Slots) (hc : c ≠ '{') :
    run zapJson p (c :: cs) s = none := by
  simp [zapJson, run, hc]

/-- What `({.+})$` matches: an opening brace, a non-empty run without newline, and a
closing brace that ends the text. -/
theorem run_zapJson (p : Nat) (r : List Char) (s s1 : Slots)
    (h : run zapJson p r s = some s1) :
    ∃ inner, r = '{' :: (inner ++ ['}']) ∧ inner ≠ [] ∧ inner.all isDot = true ∧
      s1 = ((s.set 10 p).set 11 (p + r.length)).set 1 (p + r.length) := by
  cases r with
  | nil => simp [zapJson, run] at h
  | cons c cs =>
    by_cases hc : c = '{'
    · subst hc
      simp only [zapJson, run, if_true] at h
      obtain ⟨n, h1, h2, h3, _⟩ := runRep_greedy _ _ _ _ _ _ h
      cases hd : cs.drop n with
      | nil => simp [hd, run] at h3
      | cons c2 cs2 =>
        rw [hd] at h3
        by_cases hc2 : c2 = '}'
        · subst hc2
          cases cs2 with
          | cons c3 cs3 => simp [run] at h3
          | nil =>
            simp only [run, if_true, List.isEmpty_nil, Option.some.injEq] at h3
            have hcs : cs = cs.take n ++ ['}'] := by
              rw [← hd, List.take_append_drop]
            have hlen : (cs.take n).length = n :=
              List.length_take_of_le (le_length_of_le_takeWhile _ _ _ h2)
            refine ⟨cs.take n, by rw [← hcs], ?_, take_all_of_le_takeWhile _ _ _ h2, ?_⟩
            · intro he
              rw [he] at hlen
              simp at hlen
              omega
            · have hl : (cs).length = n + 1 := by
                rw [hcs, List.length_append, hlen]; rfl
              rw [← h3, List.length_cons, hl]
              have e : p + 1 + n + 1 = p + (n + 1 + 1) := by omega
              rw [e]
        · simp [run, hc2] at h3
    · rw [run_zapJson_of_ne p c cs s hc] at h
      exact absurd h (by simp)

/-- The `\s+` before the payload takes the whole run of whitespace. -/
theorem run_zapWs4_eq (p : Nat) (r : List Char) (s : Slots) :
    run zapWs4 p r s =
      if 1 ≤ (r.takeWhile isSpace).length
      then run zapJson (p + (r.takeWhile isSpace).length) (r.dropWhile isSpace) s
      else none := by
  simp only [zapWs4, run]
  rw [runRep_forced isSpace true _ (fun p c cs hc => run_zapJson_of_ne p c cs s (by
    intro he; subst he; exact absurd hc (by decide)))]
  simp [withinMax]

theorem run_zapWs4_cons_space (p p2 : Nat) (c : Char) (y : List Char) (s s2 : Slots)
    (hc : isSpace c = true) (h : (run zapWs4 p y s).isSome = true) :
    (run zapWs4 p2 (c :: y) s2).isSome = true := by
  rw [run_zapWs4_eq] at h ⊢
  by_cases h1 : 1 ≤ (y.takeWhile isSpace).length
  · rw [if_pos h1] at h
    have h2 : 1 ≤ ((c :: y).takeWhile isSpace).length := by
      simp [List.takeWhile_cons, hc]
    rw [if_pos h2]
    simp only [List.dropWhile_cons, hc, if_true]
    rw [run_isSome_indep zapJson (by decide) _ (p + (y.takeWhile isSpace).length) _ _ s]
    exact h
  · rw [if_neg h1] at h
    exact absurd h (by simp)

theorem succ_le_takeWhile (cls : Char → Bool) :
    ∀ (l : List Char) (n : Nat) (c : Char) (t : List Char), n ≤ (l.takeWhile cls).length →
      l.drop n = c :: t → cls c = true → n + 1 ≤ (l.takeWhile cls).length := by
  intro l
  induction l with
  | nil => intro n c t _ hd _; simp at hd
  | cons a as ih =>
    intro n c t hn hd hc
    cases n with
    | zero =>
      simp only [List.drop_zero, List.cons.injEq] at hd
      obtain ⟨rfl, rfl⟩ := hd
      simp [List.takeWhile_cons, hc]
    | succ n1 =>
      by_cases ha : cls a = true
      · have h1 : n1 ≤ (as.takeWhile cls).length := by
          simpa [List.takeWhile_cons, ha] using hn
        have := ih n1 c t h1 (by simpa using hd) hc
        simpa [List.takeWhile_cons, ha] using this
      · have ha2 : cls a = false := by simpa using ha
        simp [List.takeWhile_cons, ha2] at hn

theorem isSome_contra (a b : Nat) (t : List Char) (sa sb : Slots)
    (hA : run zapWs4 a t sa = none) (hB : (run zapWs4 b t sb).isSome = true) : False := by
  rw [run_isSome_indep zapWs4 (by decide) b a t sb sa, hA] at hB
  simp at hB

theorem run_zapWs3_eq (p : Nat) (r : List Char) (s : Slots) :
    run zapWs3 p r s
      = runRep isSpace true (fun p1 r1 => run zapMessage p1 r1 s) r 1 none p := rfl

theorem run_zapMessage_eq (p : Nat) (r : List Char) (s : Slots) :
    run zapMessage p r s
      = runRep isNotBrace false (fun p1 r1 => run zapWs4 p1 r1 ((s.set 8 p).set 9 p1))
          r 1 none p := rfl

/-- What the part of the pattern after the location matches: whitespace, the message,
whitespace and the payload; the message is trimmed unless it is a single whitespace
character. -/
theorem run_zapWs3 (p : Nat) (r : List Char) (s s1 : Slots)
    (h : run zapWs3 p r s = some s1) :
    ∃ w3 msg w4 body, r = w3 ++ (msg ++ (w4 ++ body)) ∧
      w3 ≠ [] ∧ w3.all isSpace = true ∧
      msg ≠ [] ∧ msg.all isNotBrace = true ∧
      w4 ≠ [] ∧ w4.all isSpace = true ∧
      (∃ inner, body = '{' :: (inner ++ ['}']) ∧ inner ≠ [] ∧ inner.all isDot = true) ∧
      (isTrimmed msg = true ∨ ∃ c, msg = [c] ∧ isSpace c = true) ∧
      (∀ c, msg = [c] → isSpace c = true → w4.length = 1) ∧
      s1 = ((((s.set 8 (p + w3.length)).set 9 (p + w3.length + msg.length)).set 10
        (p + w3.length + msg.length + w4.length)).set 11 (p + r.length)).set 1
          (p + r.length) := by
  rw [run_zapWs3_eq] at h
  obtain ⟨k, hk1, hk2, hk3, hk4⟩ := runRep_greedy _ _ _ _ _ _ h
  rw [run_zapMessage_eq] at hk3
  obtain ⟨n, hn1, hn2, hn3, hn4⟩ := runRep_lazy _ _ _ _ _ _ hk3
  try simp only at hn3 hn4
  have hsome : (run zapWs4 (p + k + n) (List.drop n (List.drop k r))
      ((s.set 8 (p + k)).set 9 (p + k + n))).isSome = true := by rw [hn3]; rfl
  rw [run_zapWs4_eq] at hn3
  by_cases hw : 1 ≤ ((List.drop n (List.drop k r)).takeWhile isSpace).length
  swap
  · rw [if_neg hw] at hn3
    exact absurd hn3 (by simp)
  rw [if_pos hw] at hn3
  obtain ⟨inner, hbody, hin1, hin2, hs1⟩ := run_zapJson _ _ _ _ hn3
  have hklen : (r.take k).length = k :=
    List.length_take_of_le (le_length_of_le_takeWhile _ _ _ hk2)
  have hnlen : ((r.drop k).take n).length = n :=
    List.length_take_of_le (le_length_of_le_takeWhile _ _ _ hn2)
  have hr : r = r.take k ++ ((r.drop k).take n ++
      (((r.drop k).drop n).takeWhile isSpace ++ ((r.drop k).drop n).dropWhile isSpace)) := by
    rw [List.takeWhile_append_dropWhile, List.take_append_drop, List.take_append_drop]
  have hrlen : r.length = k + (n + (((List.drop n (List.drop k r)).takeWhile isSpace).length
      + ((List.drop n (List.drop k r)).dropWhile isSpace).length)) := by
    have := congrArg List.length hr
    simp only [List.length_append, hklen, hnlen] at this
    exact this
  refine ⟨r.take k, (r.drop k).take n, ((r.drop k).drop n).takeWhile isSpace,
    ((r.drop k).drop n).dropWhile isSpace, hr, ?_, take_all_of_le_takeWhile _ _ _ hk2, ?_,
    take_all_of_le_takeWhile _ _ _ hn2, ?_, takeWhile_all _ _, ⟨inner, hbody, hin1, hin2⟩,
    ?_, ?_, ?_⟩
  · intro he
    rw [he] at hklen
    simp at hklen
    omega
  · intro he
    rw [he] at hnlen
    simp at hnlen
    omega
  · intro he
    rw [he] at hw
    simp at hw
  · -- the message is trimmed, or a single whitespace character
    cases hx : r.drop k with
    | nil =>
      rw [hx] at hn2
      simp at hn2
      omega
    | cons c0 x1 =>
      rw [hx] at hn2 hn4 hsome
      cases n with
      | zero => omega
      | succ n1 =>
        have hc0 : isNotBrace c0 = true := by
          by_contra hc
          have hc2 : isNotBrace c0 = false := by simpa using hc
          simp [List.takeWhile_cons, hc2] at hn2
        have hn1le : n1 ≤ (x1.takeWhile isNotBrace).length := by
          simpa [List.takeWhile_cons, hc0] using hn2
        cases n1 with
        | zero =>
          cases hsp : isSpace c0
          · left
            simp [isTrimmed, hsp]
          · right
            exact ⟨c0, by simp, hsp⟩
        | succ n2 =>
          left
          have hn2lt : n2 < x1.length := by
            have := le_length_of_le_takeWhile _ _ _ hn1le
            omega
          have htake : x1.take (n2 + 1) = x1.take n2 ++ [x1[n2]] := by
            rw [List.take_succ]
            simp [List.getElem?_eq_getElem hn2lt]
          have hdrop : x1.drop n2 = x1[n2] :: x1.drop (n2 + 1) :=
            List.drop_eq_getElem_cons hn2lt
          -- the first character is not whitespace
          have hfirst : isSpace c0 = false := by
            cases hsp : isSpace c0
            · rfl
            · exfalso
              have hk1le : k + 1 ≤ (r.takeWhile isSpace).length :=
                succ_le_takeWhile isSpace r k c0 x1 hk2 hx hsp
              have hnone := hk4 (k + 1) (by omega) hk1le
              have hdk : r.drop (k + 1) = x1 := by
                have := congrArg (List.drop 1) hx
                simpa [List.drop_drop, Nat.add_comm] using this
              rw [hdk] at hnone
              rw [run_zapMessage_eq] at hnone
              have := runRep_eq_none _ _ _ _ _ _ hnone (n2 + 1) (by omega) hn1le
              simp only [List.drop_succ_cons] at hsome
              exact isSome_contra _ _ _ _ _ this hsome
          -- the last character is not whitespace
          have hlast : isSpace x1[n2] = false := by
            cases hsp : isSpace x1[n2]
            · rfl
            · exfalso
              have hnone := hn4 (n2 + 1) (by omega) (by omega)
              simp only [List.drop_succ_cons] at hnone hsome
              rw [hdrop] at hnone
              have := run_zapWs4_cons_space (p + k + (n2 + 1 + 1)) (p + k + (n2 + 1)) x1[n2]
                (x1.drop (n2 + 1)) _ ((s.set 8 (p + k)).set 9 (p + k + (n2 + 1))) hsp hsome
              rw [hnone] at this
              simp at this
          have hmsg : List.take (n2 + 1 + 1) (c0 :: x1) = (c0 :: x1.take n2) ++ [x1[n2]] := by
            rw [List.take_succ_cons, htake, List.cons_append]
          rw [hmsg]
          unfold isTrimmed
          rw [List.getLast?_concat, List.cons_append, List.head?_cons]
          simp only [hfirst, hlast, Bool.not_false, Bool.and_self]
  · -- a whitespace message is followed by a single whitespace character
    intro c hmsgc hsp
    have hn1 : n = 1 := by
      have := congrArg List.length hmsgc
      rw [hnlen] at this
      simpa using this
    subst hn1
    cases hx : r.drop k with
    | nil => rw [hx] at hmsgc; simp at hmsgc
    | cons c0 x1 =>
      rw [hx] at hmsgc hn3 hw
      simp only [List.take_succ_cons, List.take_zero, List.cons.injEq, and_true] at hmsgc
      subst hmsgc
      simp only [List.drop_succ_cons, List.drop_zero] at hn3 hw ⊢
      by_contra hne
      have h2 : 2 ≤ (x1.takeWhile isSpace).length := by omega
      cases hx1 : x1 with
      | nil => rw [hx1] at h2; simp at h2
      | cons a x2 =>
        rw [hx1] at h2 hn3
        have ha : isSpace a = true := by
          by_contra ha
          have ha2 : isSpace a = false := by simpa using ha
          simp [List.takeWhile_cons, ha2] at h2
        have h3 : 1 ≤ (x2.takeWhile isSpace).length := by
          simpa [List.takeWhile_cons, ha] using h2
        have hk1le : k + 1 ≤ (r.takeWhile isSpace).length :=
          succ_le_takeWhile isSpace r k c0 x1 hk2 hx hsp
        have hnone := hk4 (k + 1) (by omega) hk1le
        have hdk : r.drop (k + 1) = a :: x2 := by
          have := congrArg (List.drop 1) hx
          rw [hx1] at this
          simpa [List.drop_drop, Nat.add_comm] using this
        rw [hdk, run_zapMessage_eq] at hnone
        have hn := runRep_eq_none _ _ _ _ _ _ hnone 1 (le_refl _)
          (by simp [List.takeWhile_cons, isNotBrace_of_isSpace a ha])
        simp only [List.drop_succ_cons, List.drop_zero] at hn
        rw [run_zapWs4_eq, if_pos h3] at hn
        simp only [List.dropWhile_cons, ha, if_true] at hn3
        have hs : (run zapJson (p + k + 1 + (List.takeWhile isSpace (a :: x2)).length)
            (x2.dropWhile isSpace) ((s.set 8 (p + k)).set 9 (p + k + 1))).isSome = true := by
          rw [hn3]; rfl
        rw [run_isSome_indep zapJson (by decide) _
          (p + (k + 1) + 1 + (List.takeWhile isSpace x2).length) _ _
          ((s.set 8 (p + (k + 1))).set 9 (p + (k + 1) + 1)), hn] at hs
        simp at hs
  · rw [hs1, hklen, hnlen, hrlen]
    have e1 : p + k + n + ((List.drop n (List.drop k r)).takeWhile isSpace).length
        + ((List.drop n (List.drop k r)).dropWhile isSpace).length
        = p + (k + (n + (((List.drop n (List.drop k r)).takeWhile isSpace).length
      + ((List.drop n (List.drop k r)).dropWhile isSpace).length))) := by omega
    rw [e1]

theorem run_rep_cons_none (cls : Char → Bool) (lo : Nat) (hi : Option Nat) (g : Bool)
    (is : List Inst) (p : Nat) (c : Char) (cs : List Char) (s : Slots)
    (hc : cls c = false) (hlo : lo ≠ 0) :
    run (.rep cls lo hi g :: is) p (c :: cs) s = none := by
  simp only [run]
  rw [runRep_cons_of_not cls g _ c cs lo hi p hc, if_neg hlo]

theorem run_zapLocation_eq (p : Nat) (r : List Char) (s : Slots) :
    run zapLocation p r s =
      if 1 ≤ (r.takeWhile isNonSpace).length
      then run zapWs3 (p + (r.takeWhile isNonSpace).length) (r.dropWhile isNonSpace)
        ((s.set 6 p).set 7 (p + (r.takeWhile isNonSpace).length))
      else none := by
  have e : run zapLocation p r s
      = runRep isNonSpace true (fun p1 r1 => run zapWs3 p1 r1 ((s.set 6 p).set 7 p1))
          r 1 none p := rfl
  rw [e, runRep_forced isNonSpace true _ (fun p1 c cs hc =>
    run_rep_cons_none isSpace 1 none true zapMessage p1 c cs _
      (by simpa [isNonSpace] using hc) (by decide))]
  simp [withinMax]

theorem run_zapWs2_eq (p : Nat) (r : List Char) (s : Slots) :
    run zapWs2 p r s =
      if 1 ≤ (r.takeWhile isSpace).length
      then run zapLocation (p + (r.takeWhile isSpace).length) (r.dropWhile isSpace) s
      else none := by
  have e : run zapWs2 p r s
      = runRep isSpace true (fun p1 r1 => run zapLocation p1 r1 s) r 1 none p := rfl
  rw [e, runRep_forced isSpace true _ (fun p1 c cs hc =>
    run_rep_cons_none isNonSpace 1 none true (.cap 7 :: zapWs3) p1 c cs _
      (by simp [isNonSpace, hc]) (by decide))]
  simp [withinMax]

theorem run_zapLevel_eq (p : Nat) (r : List Char) (s : Slots) :
    run zapLevel p r s =
      if 4 ≤ (r.takeWhile isWord).length ∧ (r.takeWhile isWord).length ≤ 5
      then run zapWs2 (p + (r.takeWhile isWord).length) (r.dropWhile isWord)
        ((s.set 4 p).set 5 (p + (r.takeWhile isWord).length))
      else none := by
  have e : run zapLevel p r s
      = runRep isWord true (fun p1 r1 => run zapWs2 p1 r1 ((s.set 4 p).set 5 p1))
          r 4 (some 5) p := rfl
  rw [e, runRep_forced isWord true _ (fun p1 c cs hc =>
    run_rep_cons_none isSpace 1 none true zapLocation p1 c cs _
      (isSpace_of_isWord c hc) (by decide))]
  simp [withinMax]

theorem run_zapWs1_eq (p : Nat) (r : List Char) (s : Slots) :
    run zapWs1 p r s =
      if 1 ≤ (r.takeWhile isSpace).length
      then run zapLevel (p + (r.takeWhile isSpace).length) (r.dropWhile isSpace) (s.set 3 p)
      else none := by
  have e : run zapWs1 p r s
      = runRep isSpace true (fun p1 r1 => run zapLevel p1 r1 (s.set 3 p)) r 1 none p := rfl
  rw [e, runRep_forced isSpace true _ (fun p1 c cs hc =>
    run_rep_cons_none isWord 4 (some 5) true (.cap 5 :: zapWs2) p1 c cs _
      (isWord_of_isSpace c hc) (by decide))]
  simp [withinMax]

theorem run_zapDevLogsPrefixRe_eq (d : List Char) :
    run zapDevLogsPrefixRe 0 d (fun _ => 0) =
      if matchFixed zapTimestamp d = true
      then run zapWs1 28 (d.drop 28) ((Slots.set (fun _ => 0) 0 0).set 2 0) else none := by
  have e : run zapDevLogsPrefixRe 0 d (fun _ => 0)
      = run (zapTimestamp ++ zapWs1) 0 d ((Slots.set (fun _ => 0) 0 0).set 2 0) := rfl
  rw [e, run_fixed_append zapTimestamp (by decide)]
  rfl

theorem matchFixed_length : ∀ (pre : List Inst) (r : List Char),
    matchFixed pre r = true → widthFixed pre ≤ r.length := by
  intro pre
  induction pre with
  | nil => intro r _; simp [widthFixed]
  | cons i is ih =>
    intro r h
    cases i with
    | bol => simp [matchFixed] at h
    | eol => simp [matchFixed] at h
    | cap n => simp [matchFixed] at h
    | chr c =>
      cases r with
      | nil => simp [matchFixed] at h
      | cons c1 cs =>
        simp only [matchFixed, Bool.and_eq_true] at h
        have := ih cs h.2
        simp only [widthFixed, List.length_cons]
        omega
    | rep cls lo hi g =>
      simp only [matchFixed, Bool.and_eq_true, decide_eq_true_eq] at h
      have := ih _ h.2
      simp only [widthFixed, List.length_drop] at this ⊢
      omega

theorem drop_take_mid (pre x post : List Char) (a b : Nat) (ha : a = pre.length)
    (hb : b = pre.length + x.length) :
    ((pre ++ (x ++ post)).drop a).take (b - a) = x := by
  subst ha hb
  simp

theorem matchFixed_take : ∀ (pre : List Inst) (r : List Char) (n : Nat),
    widthFixed pre ≤ n → matchFixed pre (r.take n) = matchFixed pre r := by
  intro pre
  induction pre with
  | nil => intro r n _; simp [matchFixed]
  | cons i is ih =>
    intro r n hn
    cases i with
    | bol => simp [matchFixed]
    | eol => simp [matchFixed]
    | cap m => simp [matchFixed]
    | chr c =>
      cases r with
      | nil => simp [matchFixed]
      | cons c1 cs =>
        simp only [widthFixed] at hn
        cases n with
        | zero => omega
        | succ n1 =>
          simp only [List.take_succ_cons, matchFixed]
          rw [ih cs n1 (by omega)]
    | rep cls lo hi g =>
      simp only [widthFixed] at hn
      simp only [matchFixed]
      have e1 : List.take lo (List.take n r) = List.take lo r := by
        rw [List.take_take, Nat.min_eq_left (by omega)]
      have e2 : List.drop lo (List.take n r) = List.take (n - lo) (List.drop lo r) := by
        rw [List.drop_take]
      have e3 : decide (lo ≤ (List.take n r).length) = decide (lo ≤ r.length) := by
        simp only [List.length_take, decide_eq_decide]
        omega
      rw [e1, e2, e3, ih _ _ (by omega)]

theorem submatch_of_split (d pre x post : List Char) (s : Slots) (i : Nat)
    (hd : d = pre ++ (x ++ post)) (h0 : s (2 * i) = pre.length)
    (h1 : s (2 * i + 1) = pre.length + x.length) : submatch d s i = x := by
  unfold submatch
  rw [h0, h1, hd]
  exact drop_take_mid pre x post _ _ rfl rfl

theorem ne_nil_of_one_le_length (l : List Char) (h : 1 ≤ l.length) : l ≠ [] := by
  intro he
  rw [he] at h
  simp at h

/-- Every line `zapDevLogsPrefixRe` matches splits into the parts of the pattern, and
the submatches are the whole line, the timestamp, the level, the location, the message
and the payload. -/
theorem zap_match (d : List Char) (ms : List (List Char))
    (h : FindSubmatch zapDevLogsPrefixRe 5 d = some ms) :
    ∃ ts w1 lvl w2 loc w3 msg w4 body, ZapSplit d ts w1 lvl w2 loc w3 msg w4 body ∧
      ms = [d, ts, lvl, loc, msg, body] := by
  unfold FindSubmatch at h
  have hs : search zapDevLogsPrefixRe 0 d = run zapDevLogsPrefixRe 0 d (fun _ => 0) :=
    search_zero_bol _ d
  rw [hs, run_zapDevLogsPrefixRe_eq] at h
  by_cases hts : matchFixed zapTimestamp d = true
  swap
  · rw [if_neg hts] at h; exact absurd h (by simp)
  rw [if_pos hts, run_zapWs1_eq] at h
  by_cases h1 : 1 ≤ ((d.drop 28).takeWhile isSpace).length
  swap
  · rw [if_neg h1] at h; exact absurd h (by simp)
  rw [if_pos h1] at h
  have e0 : d.drop 28 = (d.drop 28).takeWhile isSpace ++ (d.drop 28).dropWhile isSpace :=
    (List.takeWhile_append_dropWhile _ _).symm
  have a1 := takeWhile_all isSpace (d.drop 28)
  generalize (d.drop 28).takeWhile isSpace = w1 at h h1 e0 a1
  generalize (d.drop 28).dropWhile isSpace = r1 at h e0
  rw [run_zapLevel_eq] at h
  by_cases h2 : 4 ≤ (r1.takeWhile isWord).length ∧ (r1.takeWhile isWord).length ≤ 5
  swap
  · rw [if_neg h2] at h; exact absurd h (by simp)
  rw [if_pos h2] at h
  have e1 : r1 = r1.takeWhile isWord ++ r1.dropWhile isWord :=
    (List.takeWhile_append_dropWhile _ _).symm
  have a2 := takeWhile_all isWord r1
  generalize r1.takeWhile isWord = lvl at h h2 e1 a2
  generalize r1.dropWhile isWord = r2 at h e1
  rw [run_zapWs2_eq] at h
  by_cases h3 : 1 ≤ (r2.takeWhile isSpace).length
  swap
  · rw [if_neg h3] at h; exact absurd h (by simp)
  rw [if_pos h3] at h
  have e2 : r2 = r2.takeWhile isSpace ++ r2.dropWhile isSpace :=
    (List.takeWhile_append_dropWhile _ _).symm
  have a3 := takeWhile_all isSpace r2
  generalize r2.takeWhile isSpace = w2 at h h3 e2 a3
  generalize r2.dropWhile isSpace = r3 at h e2
  rw [run_zapLocation_eq] at h
  by_cases h4 : 1 ≤ (r3.takeWhile isNonSpace).length
  swap
  · rw [if_neg h4] at h; exact absurd h (by simp)
  rw [if_pos h4] at h
  have e3 : r3 = r3.takeWhile isNonSpace ++ r3.dropWhile isNonSpace :=
    (List.takeWhile_append_dropWhile _ _).symm
  have a4 := takeWhile_all isNonSpace r3
  generalize r3.takeWhile isNonSpace = loc at h h4 e3 a4
  generalize r3.dropWhile isNonSpace = r4 at h e3
  generalize hrun : run zapWs3 (28 + w1.length + lvl.length + w2.length + loc.length) r4 _
    = res at h
  cases res with
  | none => exact absurd h (by simp)
  | some s1 =>
    simp only [Option.some.injEq] at h
    obtain ⟨w3, msg, w4, body, e4, b1, b2, b3, b4, b5, b6, b7, b8, b9, hs1⟩ :=
      run_zapWs3 _ _ _ _ hrun
    have hlen28 : (d.take 28).length = 28 := by
      have := matchFixed_length zapTimestamp d hts
      have hw : widthFixed zapTimestamp = 28 := by decide
      rw [List.length_take]
      omega
    have hline : d = d.take 28 ++ (w1 ++ (lvl ++ (w2 ++ (loc ++ (w3 ++ (msg ++ (w4 ++ body)))))))
        := by
      rw [← e4, ← e3, ← e2, ← e1, ← e0, List.take_append_drop]
    have hr4len : r4.length = w3.length + (msg.length + (w4.length + body.length)) := by
      rw [e4]; simp only [List.length_append]
    have hdlen : d.length = 28 + (w1.length + (lvl.length + (w2.length + (loc.length
        + (w3.length + (msg.length + (w4.length + body.length))))))) := by
      have := congrArg List.length hline
      simp only [List.length_append, hlen28] at this
      exact this
    refine ⟨d.take 28, w1, lvl, w2, loc, w3, msg, w4, body, ?_, ?_⟩
    · exact
        { line := hline
          ts_shape := by rw [matchFixed_take zapTimestamp d 28 (by decide)]; exact hts
          ts_length := hlen28
          w1_ne := ne_nil_of_one_le_length _ h1
          w1_space := a1
          lvl_length := h2
          lvl_word := a2
          w2_ne := ne_nil_of_one_le_length _ h3
          w2_space := a3
          loc_ne := ne_nil_of_one_le_length _ h4
          loc_nonSpace := a4
          w3_ne := b1
          w3_space := b2
          msg_ne := b3
          msg_notBrace := b4
          msg_trim := b8
          w4_single := b9
          w4_ne := b5
          w4_space := b6
          body_shape := b7 }
    · rw [← h]
      have hrange : List.range (5 + 1) = [0, 1, 2, 3, 4, 5] := by decide
      rw [hrange]
      simp only [List.map_cons, List.map_nil]
      have g0 : submatch d s1 0 = d := by
        apply submatch_of_split d [] d [] s1 0 (by simp)
        · rw [hs1]; simp [Slots.set]
        · rw [hs1]; simp [Slots.set, hr4len, hdlen]; omega
      have g1 : submatch d s1 1 = d.take 28 := by
        apply submatch_of_split d [] (d.take 28) _ s1 1 (by rw [List.nil_append]; exact hline)
        · rw [hs1]; simp [Slots.set]
        · rw [hs1]; simp [Slots.set, hlen28]
      have g2 : submatch d s1 2 = lvl := by
        apply submatch_of_split d (d.take 28 ++ w1) lvl _ s1 2
          (by rw [List.append_assoc]; exact hline)
        · rw [hs1]; simp [Slots.set, hlen28]
        · rw [hs1]; simp [Slots.set, hlen28]
      have g3 : submatch d s1 3 = loc := by
        apply submatch_of_split d (d.take 28 ++ (w1 ++ (lvl ++ w2))) loc _ s1 3
          (by simp only [List.append_assoc]; exact hline)
        · rw [hs1]; simp [Slots.set, hlen28]; omega
        · rw [hs1]; simp [Slots.set, hlen28]; omega
      have g4 : submatch d s1 4 = msg := by
        apply submatch_of_split d (d.take 28 ++ (w1 ++ (lvl ++ (w2 ++ (loc ++ w3))))) msg _ s1 4
          (by simp only [List.append_assoc]; exact hline)
        · rw [hs1]; simp [Slots.set, hlen28]; omega
        · rw [hs1]; simp [Slots.set, hlen28]; omega
      have g5 : submatch d s1 5 = body := by
        apply submatch_of_split d
          (d.take 28 ++ (w1 ++ (lvl ++ (w2 ++ (loc ++ (w3 ++ (msg ++ w4))))))) body [] s1 5
          (by simp only [List.append_assoc, List.append_nil]; exact hline)
        · rw [hs1]; simp [Slots.set, hlen28]; omega
        · rw [hs1]; simp [Slots.set, hlen28, hr4len]; omega
      rw [g0, g1, g2, g3, g4, g5]

/-! ## Theorems: zap_development_handler.go -/

theorem lookup_setKey (m : List (String × String)) (k v : String) :
    (setKey m k v).lookup k = some v := by
  induction m with
  | nil => simp [setKey, List.lookup]
  | cons kv m ih =>
    obtain ⟨k1, v1⟩ := kv
    by_cases hk : k1 = k
    · simp [setKey, hk, List.lookup]
    · have hk2 : (k == k1) = false := by
        simpa using fun h => hk h.symm
      simp [setKey, hk, List.lookup, hk2, ih]

/-- The result of `tryZapDevPrefix` when the pattern does not match. -/
theorem tryZapDevPrefix_of_no_match
    (TryHandle : List Char → JSONHandler → Bool × JSONHandler) (d : List Char)
    (handler : JSONHandler) (h : FindSubmatch zapDevLogsPrefixRe 5 d = none) :
    tryZapDevPrefix TryHandle d handler = (false, handler) := by
  unfold tryZapDevPrefix
  rw [h]

/-- The result of `tryZapDevPrefix` when `TryHandle` rejects the payload. -/
theorem tryZapDevPrefix_of_rejected
    (TryHandle : List Char → JSONHandler → Bool × JSONHandler) (d : List Char)
    (handler : JSONHandler) (ms : List (List Char))
    (hm : FindSubmatch zapDevLogsPrefixRe 5 d = some ms)
    (hT : (TryHandle (ms.getD 5 []) handler).1 = false) :
    tryZapDevPrefix TryHandle d handler = (false, (TryHandle (ms.getD 5 []) handler).2) := by
  unfold tryZapDevPrefix
  rw [hm]
  dsimp only
  rcases hx : TryHandle (ms.getD 5 []) handler with ⟨b, h2⟩
  rw [hx] at hT
  dsimp only at hT
  subst hT
  rfl

/-- The result of `tryZapDevPrefix` when the timestamp does not parse. -/
theorem tryZapDevPrefix_of_bad_time
    (TryHandle : List Char → JSONHandler → Bool × JSONHandler) (d : List Char)
    (handler : JSONHandler) (ms : List (List Char))
    (hm : FindSubmatch zapDevLogsPrefixRe 5 d = some ms)
    (hT : (TryHandle (ms.getD 5 []) handler).1 = true)
    (hp : parseSomeRFC (ms.getD 1 []) = none) :
    tryZapDevPrefix TryHandle d handler = (false, (TryHandle (ms.getD 5 []) handler).2) := by
  unfold tryZapDevPrefix
  rw [hm]
  dsimp only
  rcases hx : TryHandle (ms.getD 5 []) handler with ⟨b, h2⟩
  rw [hx] at hT
  dsimp only at hT
  subst hT
  dsimp only
  rw [hp]

/-- The result of `tryZapDevPrefix` when it accepts the line. -/
theorem tryZapDevPrefix_of_accepted
    (TryHandle : List Char → JSONHandler → Bool × JSONHandler) (d : List Char)
    (handler : JSONHandler) (ms : List (List Char)) (t : Time)
    (hm : FindSubmatch zapDevLogsPrefixRe 5 d = some ms)
    (hT : (TryHandle (ms.getD 5 []) handler).1 = true)
    (hp : parseSomeRFC (ms.getD 1 []) = some t) :
    tryZapDevPrefix TryHandle d handler = (true,
      { ({ (TryHandle (ms.getD 5 []) handler).2 with
            Time := some t, Level := String.mk (ToLower (ms.getD 2 [])) } : JSONHandler).setField
          "caller".toList (ms.getD 3 []) with Message := String.mk (ms.getD 4 []) }) := by
  unfold tryZapDevPrefix
  rw [hm]
  dsimp only
  rcases hx : TryHandle (ms.getD 5 []) handler with ⟨b, h2⟩
  rw [hx] at hT
  dsimp only at hT
  subst hT
  dsimp only
  rw [hp]

/-- The result of `tryZapDevPrefix` when it returns true. -/
theorem tryZapDevPrefix_true
    (TryHandle : List Char → JSONHandler → Bool × JSONHandler) (d : List Char)
    (handler : JSONHandler) (h : (tryZapDevPrefix TryHandle d handler).1 = true) :
    ∃ ms t, FindSubmatch zapDevLogsPrefixRe 5 d = some ms ∧
      (TryHandle (ms.getD 5 []) handler).1 = true ∧ parseSomeRFC (ms.getD 1 []) = some t ∧
      (tryZapDevPrefix TryHandle d handler).2 =
        { ({ (TryHandle (ms.getD 5 []) handler).2 with
              Time := some t, Level := String.mk (ToLower (ms.getD 2 [])) } : JSONHandler).setField
            "caller".toList (ms.getD 3 []) with Message := String.mk (ms.getD 4 []) } := by
  cases hm : FindSubmatch zapDevLogsPrefixRe 5 d with
  | none =>
    rw [tryZapDevPrefix_of_no_match TryHandle d handler hm] at h
    exact absurd h Bool.false_ne_true
  | some ms =>
    cases hT : (TryHandle (ms.getD 5 []) handler).1 with
    | false =>
      rw [tryZapDevPrefix_of_rejected TryHandle d handler ms hm hT] at h
      exact absurd h Bool.false_ne_true
    | true =>
      cases hp : parseSomeRFC (ms.getD 1 []) with
      | none =>
        rw [tryZapDevPrefix_of_bad_time TryHandle d handler ms hm hT hp] at h
        exact absurd h Bool.false_ne_true
      | some t =>
        refine ⟨ms, t, rfl, hT, hp, ?_⟩
        rw [tryZapDevPrefix_of_accepted TryHandle d handler ms t hm hT hp]

/-- C3. `tryZapDevPrefix` returns true exactly when the line matches
`zapDevLogsPrefixRe`, `TryHandle` accepts the captured payload, and the captured
timestamp parses under the layout `2006-01-02T15:04:05.000-0700`. In particular the
line with month 13 matches the pattern but is rejected because its timestamp does not
parse, and a line whose payload `TryHandle` rejects is rejected. -/
theorem C3_tryZapDevPrefix_true_iff
    (TryHandle : List Char → JSONHandler → Bool × JSONHandler) (handler : JSONHandler) :
    (∀ d, (tryZapDevPrefix TryHandle d handler).1 = true ↔
      ∃ ms, FindSubmatch zapDevLogsPrefixRe 5 d = some ms ∧
        (TryHandle (ms.getD 5 []) handler).1 = true ∧
        (parseSomeRFC (ms.getD 1 [])).isSome = true) ∧
    ((FindSubmatch zapDevLogsPrefixRe 5 lineMonth13).map (fun ms => ms.getD 1 [])
        = some "2021-13-01T00:00:00.000-0700".toList ∧
      parseSomeRFC "2021-13-01T00:00:00.000-0700".toList = none ∧
      (tryZapDevPrefix TryHandle lineMonth13 handler).1 = false) ∧
    (∀ d ms, FindSubmatch zapDevLogsPrefixRe 5 d = some ms →
      (TryHandle (ms.getD 5 []) handler).1 = false →
      (tryZapDevPrefix TryHandle d handler).1 = false) := by
  have hiff : ∀ d, (tryZapDevPrefix TryHandle d handler).1 = true ↔
      ∃ ms, FindSubmatch zapDevLogsPrefixRe 5 d = some ms ∧
        (TryHandle (ms.getD 5 []) handler).1 = true ∧
        (parseSomeRFC (ms.getD 1 [])).isSome = true := by
    intro d
    constructor
    · intro h
      obtain ⟨ms, t, h1, h2, h3, _⟩ := tryZapDevPrefix_true TryHandle d handler h
      exact ⟨ms, h1, h2, by rw [h3]; rfl⟩
    · rintro ⟨ms, h1, h2, h3⟩
      cases hp : parseSomeRFC (ms.getD 1 []) with
      | none => rw [hp] at h3; exact absurd h3 (by simp)
      | some t => rw [tryZapDevPrefix_of_accepted TryHandle d handler ms t h1 h2 hp]
  have hmatch : (FindSubmatch zapDevLogsPrefixRe 5 lineMonth13).map (fun ms => ms.getD 1 [])
      = some "2021-13-01T00:00:00.000-0700".toList := by decide
  have hparse : parseSomeRFC "2021-13-01T00:00:00.000-0700".toList = none := by decide
  refine ⟨hiff, ⟨hmatch, hparse, ?_⟩, ?_⟩
  · cases hr : (tryZapDevPrefix TryHandle lineMonth13 handler).1 with
    | false => rfl
    | true =>
      obtain ⟨ms, h1, _, h3⟩ := (hiff lineMonth13).1 hr
      rw [h1] at hmatch
      simp only [Option.map_some', Option.some.injEq] at hmatch
      rw [hmatch, hparse] at h3
      exact absurd h3 (by simp)
  · intro d ms h1 h2
    cases hr : (tryZapDevPrefix TryHandle d handler).1 with
    | false => rfl
    | true =>
      obtain ⟨ms2, h3, h4, _⟩ := (hiff d).1 hr
      rw [h1] at h3
      simp only [Option.some.injEq] at h3
      subst h3
      rw [h2] at h4
      exact absurd h4 (by simp)

/-- C3 at a concrete input: the well-formed line is accepted by the handler of the
structured-object dialect. -/
theorem C3_tryZapDevPrefix_true_iff_witness :
    (tryZapDevPrefix JSONHandler.TryHandle lineWellFormed freshHandler).1 = true :=
  ((C3_tryZapDevPrefix_true_iff JSONHandler.TryHandle freshHandler).1 lineWellFormed).2
    ⟨[lineWellFormed, "2021-01-01T00:00:00.000-0700".toList, "INFO".toList,
        "main.go:10".toList, "hello".toList, payloadA],
      by decide, by decide, by decide⟩

/-- The payload of a split line contains `{` and ends with `}`. -/
theorem ZapSplit.brace_mem_and_last {d ts w1 lvl w2 loc w3 msg w4 body : List Char}
    (hz : ZapSplit d ts w1 lvl w2 loc w3 msg w4 body) :
    '{' ∈ d ∧ d.getLast? = some '}' := by
  obtain ⟨inner, hb, _, _⟩ := hz.body_shape
  have hline := hz.line
  rw [hb] at hline
  constructor
  · rw [hline]
    simp
  · have e : d = (ts ++ (w1 ++ (lvl ++ (w2 ++ (loc ++ (w3 ++ (msg ++ (w4 ++ '{' :: inner)))))))) ++
        ['}'] := by
      rw [hline]
      simp
    rw [e, List.getLast?_concat]

set_option maxRecDepth 100000 in
/-- C4 (fails on the code). On the line with month 13 the pattern matches, `TryHandle`
accepts the payload `{"a":1}` and stores its field, and then the timestamp fails to
parse: `tryZapDevPrefix` returns false but the handler keeps what `TryHandle` stored.
This holds for every `TryHandle` that accepts the payload; with the handler of the
structured-object dialect a fresh handler ends up holding the field `a`. -/
theorem C4_rejected_line_leaves_partial_record :
    ((tryZapDevPrefix JSONHandler.TryHandle lineMonth13 freshHandler).1 = false ∧
      (tryZapDevPrefix JSONHandler.TryHandle lineMonth13 freshHandler).2.Fields
        = [("a", "1")] ∧
      freshHandler.Fields = [] ∧
      (tryZapDevPrefix JSONHandler.TryHandle lineMonth13 freshHandler).2 ≠ freshHandler) ∧
    (∀ (TryHandle : List Char → JSONHandler → Bool × JSONHandler) (handler : JSONHandler),
      (TryHandle payloadA handler).1 = true →
      tryZapDevPrefix TryHandle lineMonth13 handler
        = (false, (TryHandle payloadA handler).2)) := by
  refine ⟨by decide, ?_⟩
  intro TryHandle handler hT
  have hm : FindSubmatch zapDevLogsPrefixRe 5 lineMonth13
      = some [lineMonth13, "2021-13-01T00:00:00.000-0700".toList, "INFO".toList,
          "main.go:10".toList, "hello".toList, payloadA] := by decide
  exact tryZapDevPrefix_of_bad_time TryHandle lineMonth13 handler _ hm hT (by decide)

/-- C5. A line that contains no `{`, or whose last character is not `}`, is not matched
by the pattern: `tryZapDevPrefix` returns false with the handler unchanged, whatever
`TryHandle` is (the call of `TryHandle` is guarded by the match, so it is not reached). -/
theorem C5_line_without_payload_rejected
    (TryHandle : List Char → JSONHandler → Bool × JSONHandler) (d : List Char)
    (handler : JSONHandler) (h : '{' ∉ d ∨ d.getLast? ≠ some '}') :
    FindSubmatch zapDevLogsPrefixRe 5 d = none ∧
    tryZapDevPrefix TryHandle d handler = (false, handler) := by
  have hnone : FindSubmatch zapDevLogsPrefixRe 5 d = none := by
    cases hm : FindSubmatch zapDevLogsPrefixRe 5 d with
    | none => rfl
    | some ms =>
      exfalso
      obtain ⟨ts, w1, lvl, w2, loc, w3, msg, w4, body, hz, _⟩ := zap_match d ms hm
      have hb := hz.brace_mem_and_last
      rcases h with h | h
      · exact h hb.1
      · exact h hb.2
  exact ⟨hnone, tryZapDevPrefix_of_no_match TryHandle d handler hnone⟩

/-- C5 at a concrete input: the line `... main.go:10 hello` has no `{`; it is rejected
and a handler that would accept anything and change the record is left as it was. -/
theorem C5_line_without_payload_rejected_witness :
    ('{' ∉ lineNoPayload ∨ lineNoPayload.getLast? ≠ some '}') ∧
    FindSubmatch zapDevLogsPrefixRe 5 lineNoPayload = none ∧
    tryZapDevPrefix (fun _ h => (true, { h with Message := "touched" })) lineNoPayload
      freshHandler = (false, freshHandler) :=
  ⟨Or.inl (by decide),
    C5_line_without_payload_rejected (fun _ h => (true, { h with Message := "touched" }))
      lineNoPayload freshHandler (Or.inl (by decide))⟩

theorem isTrimmed_head {a : Char} {rest : List Char} (h : isTrimmed (a :: rest) = true) :
    isSpace a = false := by
  unfold isTrimmed at h
  rw [List.head?_cons] at h
  cases hl : (a :: rest).getLast? with
  | none => rw [hl] at h; exact absurd h (by simp)
  | some b =>
    rw [hl] at h
    simp only [Bool.and_eq_true, Bool.not_eq_true'] at h
    exact h.1

set_option maxRecDepth 100000 in
/-- C7 (fails on the code). On the line with three spaces between the location and the
payload the pattern takes one space as separator, one as message and one as separator:
the line is accepted and the message is a single space, which is not trimmed. This
holds for every `TryHandle` that accepts the payload `{"a":1}`. -/
theorem C7_blank_message_counterexample :
    ((tryZapDevPrefix JSONHandler.TryHandle lineBlankMessage freshHandler).1 = true ∧
      (tryZapDevPrefix JSONHandler.TryHandle lineBlankMessage freshHandler).2.Message = " " ∧
      isTrimmed
        (tryZapDevPrefix JSONHandler.TryHandle lineBlankMessage freshHandler).2.Message.toList
        = false) ∧
    (∀ (TryHandle : List Char → JSONHandler → Bool × JSONHandler) (handler : JSONHandler),
      (TryHandle payloadA handler).1 = true →
      (tryZapDevPrefix TryHandle lineBlankMessage handler).1 = true ∧
      (tryZapDevPrefix TryHandle lineBlankMessage handler).2.Message = " ") := by
  refine ⟨by decide, ?_⟩
  intro TryHandle handler hT
  have hm : FindSubmatch zapDevLogsPrefixRe 5 lineBlankMessage
      = some [lineBlankMessage, "2021-01-01T00:00:00.000-0700".toList, "INFO".toList,
          "main.go:10".toList, " ".toList, payloadA] := by decide
  rw [tryZapDevPrefix_of_accepted TryHandle lineBlankMessage handler _
    { year := 2021, month := 1, day := 1, hour := 0, minute := 0, second := 0,
      nanosecond := 0, zoneOffset := -25200 } hm hT (by decide)]
  exact ⟨rfl, rfl⟩

/-- C7 (amended). For every accepted line the message is the message token of the
pattern: it is non-empty and holds no `{`; it is trimmed of surrounding whitespace
whenever the text between the location and the payload holds a character that is not
whitespace; when that text is whitespace only, the message is a single whitespace
character. -/
theorem C7_message_trimmed_unless_blank
    (TryHandle : List Char → JSONHandler → Bool × JSONHandler) (d : List Char)
    (handler : JSONHandler) (h : (tryZapDevPrefix TryHandle d handler).1 = true) :
    ∃ ts w1 lvl w2 loc w3 msg w4 body,
      ZapSplit d ts w1 lvl w2 loc w3 msg w4 body ∧
      (tryZapDevPrefix TryHandle d handler).2.Message = String.mk msg ∧
      msg ≠ [] ∧ msg.all isNotBrace = true ∧
      ((w3 ++ msg ++ w4).all isSpace = false → isTrimmed msg = true) ∧
      ((w3 ++ msg ++ w4).all isSpace = true → ∃ c, msg = [c] ∧ isSpace c = true) := by
  obtain ⟨ms, t, hm, _, hp, hres⟩ := tryZapDevPrefix_true TryHandle d handler h
  obtain ⟨ts, w1, lvl, w2, loc, w3, msg, w4, body, hz, hms⟩ := zap_match d ms hm
  subst hms
  refine ⟨ts, w1, lvl, w2, loc, w3, msg, w4, body, hz, by rw [hres]; rfl, hz.msg_ne,
    hz.msg_notBrace, ?_, ?_⟩
  · intro hns
    rcases hz.msg_trim with ht | ⟨c, hc, hs⟩
    · exact ht
    · exfalso
      have : (w3 ++ msg ++ w4).all isSpace = true := by
        rw [List.all_append, List.all_append, hz.w3_space, hz.w4_space, hc]
        simp [hs]
      rw [this] at hns
      exact absurd hns (by decide)
  · intro hs
    rcases hz.msg_trim with ht | hc
    · exfalso
      rw [List.all_append, List.all_append] at hs
      simp only [Bool.and_eq_true] at hs
      have hmsg := hs.1.2
      cases hmm : msg with
      | nil => exact hz.msg_ne hmm
      | cons a rest =>
        rw [hmm] at ht hmsg
        have h1 := isTrimmed_head ht
        simp only [List.all_cons, Bool.and_eq_true] at hmsg
        rw [hmsg.1] at h1
        exact absurd h1 (by decide)
    · exact hc

set_option maxRecDepth 100000 in
/-- C7 (amended) at a concrete input: the well-formed line is accepted. -/
theorem C7_message_trimmed_unless_blank_witness :
    (tryZapDevPrefix JSONHandler.TryHandle lineWellFormed freshHandler).1 = true ∧
    ∃ ts w1 lvl w2 loc w3 msg w4 body,
      ZapSplit lineWellFormed ts w1 lvl w2 loc w3 msg w4 body ∧
      (tryZapDevPrefix JSONHandler.TryHandle lineWellFormed freshHandler).2.Message
        = String.mk msg ∧
      msg ≠ [] ∧ msg.all isNotBrace = true ∧
      ((w3 ++ msg ++ w4).all isSpace = false → isTrimmed msg = true) ∧
      ((w3 ++ msg ++ w4).all isSpace = true → ∃ c, msg = [c] ∧ isSpace c = true) :=
  ⟨by decide,
    C7_message_trimmed_unless_blank JSONHandler.TryHandle lineWellFormed freshHandler
      (by decide)⟩

/-- C8. Whenever `tryZapDevPrefix` returns true, the field `caller` of the handler
holds the location token of the line (a non-empty run of non-whitespace characters with
whitespace on both sides, after the level), whatever `TryHandle` stored under `caller`. -/
theorem C8_caller_is_location
    (TryHandle : List Char → JSONHandler → Bool × JSONHandler) (d : List Char)
    (handler : JSONHandler) (h : (tryZapDevPrefix TryHandle d handler).1 = true) :
    ∃ ts w1 lvl w2 loc w3 msg w4 body,
      ZapSplit d ts w1 lvl w2 loc w3 msg w4 body ∧
      (tryZapDevPrefix TryHandle d handler).2.Fields.lookup "caller"
        = some (String.mk loc) := by
  obtain ⟨ms, t, hm, _, hp, hres⟩ := tryZapDevPrefix_true TryHandle d handler h
  obtain ⟨ts, w1, lvl, w2, loc, w3, msg, w4, body, hz, hms⟩ := zap_match d ms hm
  subst hms
  refine ⟨ts, w1, lvl, w2, loc, w3, msg, w4, body, hz, ?_⟩
  rw [hres]
  exact lookup_setKey _ "caller" (String.mk loc)

set_option maxRecDepth 100000 in
/-- C8 at a concrete input: the payload names the caller `x`, and `TryHandle` stores
it; after `tryZapDevPrefix` the field `caller` holds the location `main.go:10`. -/
theorem C8_caller_is_location_witness :
    ((tryZapDevPrefix JSONHandler.TryHandle lineOverride freshHandler).1 = true ∧
      (JSONHandler.TryHandle (lineOverride.drop 51) freshHandler).2.Fields.lookup "caller"
        = some "x" ∧
      (tryZapDevPrefix JSONHandler.TryHandle lineOverride freshHandler).2.Fields.lookup "caller"
        = some "main.go:10") ∧
    ∃ ts w1 lvl w2 loc w3 msg w4 body,
      ZapSplit lineOverride ts w1 lvl w2 loc w3 msg w4 body ∧
      (tryZapDevPrefix JSONHandler.TryHandle lineOverride freshHandler).2.Fields.lookup "caller"
        = some (String.mk loc) :=
  ⟨by decide,
    C8_caller_is_location JSONHandler.TryHandle lineOverride freshHandler (by decide)⟩

/-! ## Theorems: config.go, continued -/

theorem toLower_toLower (c : Char) : c.toLower.toLower = c.toLower := by
  by_cases h : c.toNat ≥ 65 ∧ c.toNat ≤ 90
  · have h1 : c.toLower = Char.ofNat (c.toNat + 32) := by
      simp only [Char.toLower, h, and_self, if_true]
    have hv : (c.toNat + 32).isValidChar := by
      left
      omega
    have h2 : (Char.ofNat (c.toNat + 32)).toNat = c.toNat + 32 := by
      simp only [Char.ofNat, hv, dif_pos]
      rfl
    rw [h1]
    have h3 : ¬ ((Char.ofNat (c.toNat + 32)).toNat ≥ 65 ∧ (Char.ofNat (c.toNat + 32)).toNat ≤ 90) := by
      rw [h2]
      omega
    simp only [Char.toLower, h3, if_false]
  · have h1 : c.toLower = c := by
      simp only [Char.toLower, h, if_false]
    rw [h1, h1]

theorem ToLower_ToLower (l : List Char) : ToLower (ToLower l) = ToLower l := by
  simp only [ToLower, List.map_map]
  apply List.map_congr_left
  intro c _
  exact toLower_toLower c

theorem config.lowercase_lowercase (s : String) :
    config.lowercase (config.lowercase s) = config.lowercase s := by
  simp only [config.lowercase, String.toList]
  rw [ToLower_ToLower]

/-- C11 (fails on the code). `populateEmpty` has no step for `Interrupt`: applied to the
config that sets nothing, with `DefaultConfig` as defaults, it returns `Interrupt` absent
although `DefaultConfig` supplies `false`. For every default, each of the other
thirteen optional fields of the result equals that of the default. -/
theorem C11_interrupt_not_defaulted :
    ((config.emptyConfig 0).populateEmpty config.DefaultConfig).Interrupt = none ∧
    config.DefaultConfig.Interrupt = some false ∧
    (∀ (v : Int) (dflt : config.Config),
      ((config.emptyConfig v).populateEmpty dflt).Interrupt = none ∧
      ((config.emptyConfig v).populateEmpty dflt).Skip = dflt.Skip ∧
      ((config.emptyConfig v).populateEmpty dflt).Keep = dflt.Keep ∧
      ((config.emptyConfig v).populateEmpty dflt).TimeFields = dflt.TimeFields ∧
      ((config.emptyConfig v).populateEmpty dflt).MessageFields = dflt.MessageFields ∧
      ((config.emptyConfig v).populateEmpty dflt).LevelFields = dflt.LevelFields ∧
      ((config.emptyConfig v).populateEmpty dflt).SortLongest = dflt.SortLongest ∧
      ((config.emptyConfig v).populateEmpty dflt).SkipUnchanged = dflt.SkipUnchanged ∧
      ((config.emptyConfig v).populateEmpty dflt).Truncates = dflt.Truncates ∧
      ((config.emptyConfig v).populateEmpty dflt).LightBg = dflt.LightBg ∧
      ((config.emptyConfig v).populateEmpty dflt).ColorMode = dflt.ColorMode ∧
      ((config.emptyConfig v).populateEmpty dflt).TruncateLength = dflt.TruncateLength ∧
      ((config.emptyConfig v).populateEmpty dflt).TimeFormat = dflt.TimeFormat ∧
      ((config.emptyConfig v).populateEmpty dflt).Palette = dflt.Palette) := by
  refine ⟨by decide, rfl, ?_⟩
  intro v dflt
  rw [config.populateEmpty_eq]
  exact ⟨rfl, rfl, rfl, rfl, rfl, rfl, rfl, rfl, rfl, rfl, rfl, rfl, rfl, rfl⟩

/-- C12. `GrokColorMode` maps every string whose lowercase form is `on`, `off` or `auto`
to `ColorModeOn`, `ColorModeOff` or `ColorModeAuto` without error; the three modes are
the distinct values 0, 1 and 2; the `ColorMode` of the default config resolves to
`ColorModeAuto`. -/
theorem C12_GrokColorMode_documented_modes (s : String) :
    (config.lowercase s = "on" → config.GrokColorMode s = (config.ColorModeOn, none)) ∧
    (config.lowercase s = "off" → config.GrokColorMode s = (config.ColorModeOff, none)) ∧
    (config.lowercase s = "auto" → config.GrokColorMode s = (config.ColorModeAuto, none)) ∧
    (config.ColorModeOff = 0 ∧ config.ColorModeOn = 1 ∧ config.ColorModeAuto = 2) ∧
    (config.ColorModeOff ≠ config.ColorModeOn ∧ config.ColorModeOn ≠ config.ColorModeAuto ∧
      config.ColorModeOff ≠ config.ColorModeAuto) ∧
    config.DefaultConfig.ColorMode.map config.GrokColorMode
      = some (config.ColorModeAuto, none) := by
  refine ⟨?_, ?_, ?_, ⟨rfl, rfl, rfl⟩, by decide, by decide⟩
  · intro h
    unfold config.GrokColorMode
    rw [h]
    simp
  · intro h
    unfold config.GrokColorMode
    rw [h]
    simp
  · intro h
    unfold config.GrokColorMode
    rw [h]
    simp

/-- C12 at concrete inputs: `ON`, `oFf` and `Auto`. -/
theorem C12_GrokColorMode_documented_modes_witness :
    config.GrokColorMode "ON" = (config.ColorModeOn, none) ∧
    config.GrokColorMode "oFf" = (config.ColorModeOff, none) ∧
    config.GrokColorMode "Auto" = (config.ColorModeAuto, none) :=
  ⟨(C12_GrokColorMode_documented_modes "ON").1 (by decide),
    (C12_GrokColorMode_documented_modes "oFf").2.1 (by decide),
    (C12_GrokColorMode_documented_modes "Auto").2.2.1 (by decide)⟩

/-- C14. `GrokColorMode` returns an error exactly when the lowercased input is none of
the fifteen keywords; the keywords of each group give the mode of the group without
error; with an error the mode is `ColorModeAuto` and the message quotes the input as
given; the mode and the presence of an error are the same for the input and for its
lowercase form. -/
theorem C14_GrokColorMode_error_iff (s : String) :
    ((config.GrokColorMode s).2.isSome = true ↔
      config.lowercase s ∉ ["on", "always", "force", "true", "yes", "1", "off", "never",
        "false", "no", "0", "auto", "tty", "maybe", ""]) ∧
    (config.lowercase s ∈ ["on", "always", "force", "true", "yes", "1"] →
      config.GrokColorMode s = (config.ColorModeOn, none)) ∧
    (config.lowercase s ∈ ["off", "never", "false", "no", "0"] →
      config.GrokColorMode s = (config.ColorModeOff, none)) ∧
    (config.lowercase s ∈ ["auto", "tty", "maybe", ""] →
      config.GrokColorMode s = (config.ColorModeAuto, none)) ∧
    ((config.GrokColorMode s).2.isSome = true →
      config.GrokColorMode s = (config.ColorModeAuto, some ("\x27" ++ s ++
        "\x27 is not a color mode (try \x27on\x27, \x27off\x27 or \x27auto\x27)"))) ∧
    ((config.GrokColorMode (config.lowercase s)).1 = (config.GrokColorMode s).1 ∧
      (config.GrokColorMode (config.lowercase s)).2.isSome
        = (config.GrokColorMode s).2.isSome) := by
  unfold config.GrokColorMode
  rw [config.lowercase_lowercase]
  generalize config.lowercase s = l
  by_cases h1 : l ∈ ["on", "always", "force", "true", "yes", "1"]
  · simp only [h1, if_true]
    simp only [List.mem_cons, List.mem_singleton, List.not_mem_nil, or_false] at h1
    rcases h1 with h | h | h | h | h | h <;> subst h <;> simp
  · by_cases h2 : l ∈ ["off", "never", "false", "no", "0"]
    · simp only [h1, h2, if_true, if_false]
      simp only [List.mem_cons, List.mem_singleton, List.not_mem_nil, or_false] at h2
      rcases h2 with h | h | h | h | h <;> subst h <;> simp
    · by_cases h3 : l ∈ ["auto", "tty", "maybe", ""]
      · simp only [h1, h2, h3, if_true, if_false]
        simp only [List.mem_cons, List.mem_singleton, List.not_mem_nil, or_false] at h3
        rcases h3 with h | h | h | h <;> subst h <;> simp
      · simp only [h1, h2, h3, if_false]
        refine ⟨?_, fun h => h.elim, fun h => h.elim, fun h => h.elim,
          fun _ => trivial, trivial, rfl⟩
        simp only [Option.isSome_some, true_iff]
        simp only [List.mem_cons, List.mem_singleton, List.not_mem_nil, or_false] at h1 h2 h3 ⊢
        tauto

/-- C14 at concrete inputs: `Never` is a keyword, `Onn` is not. -/
theorem C14_GrokColorMode_error_iff_witness :
    config.GrokColorMode "Never" = (config.ColorModeOff, none) ∧
    config.GrokColorMode "Onn" = (config.ColorModeAuto, some ("\x27" ++ "Onn" ++
        "\x27 is not a color mode (try \x27on\x27, \x27off\x27 or \x27auto\x27)")) :=
  ⟨(C14_GrokColorMode_error_iff "Never").2.2.1 (by decide),
    (C14_GrokColorMode_error_iff "Onn").2.2.2.2.1
      ((C14_GrokColorMode_error_iff "Onn").1.2 (by decide))⟩

/-- C19. `populateEmpty` is idempotent in its defaults: merging the same defaults a
second time changes nothing. -/
theorem C19_populateEmpty_idempotent (cfg dflt : config.Config) :
    (cfg.populateEmpty dflt).populateEmpty dflt = cfg.populateEmpty dflt := by
  rw [config.populateEmpty_eq (cfg.populateEmpty dflt) dflt, config.populateEmpty_eq cfg dflt]
  obtain ⟨v, sk, kp, tf, mf, lf, sl, su, tr, lb, cm, tl, tfm, pl, it⟩ := cfg
  obtain ⟨v2, sk2, kp2, tf2, mf2, lf2, sl2, su2, tr2, lb2, cm2, tl2, tfm2, pl2, it2⟩ := dflt
  simp only
  congr 1
  · cases sk <;> cases kp <;> cases sk2 <;> cases kp2 <;> rfl
  · cases sk <;> cases kp <;> cases sk2 <;> cases kp2 <;> rfl
  · cases tf <;> cases tf2 <;> rfl
  · cases mf <;> cases mf2 <;> rfl
  · cases lf <;> cases lf2 <;> rfl
  · cases sl <;> cases sl2 <;> rfl
  · cases su <;> cases su2 <;> rfl
  · cases tr <;> cases tr2 <;> rfl
  · cases lb <;> cases lb2 <;> rfl
  · cases cm <;> cases cm2 <;> rfl
  · cases tl <;> cases tl2 <;> rfl
  · cases tfm <;> cases tfm2 <;> rfl
  · cases pl <;> cases pl2 <;> rfl

/-! ## Theorems: handler.go, continued -/

/-- C13. The declared `DefaultOptions` and the lists of `config.DefaultConfig` are the
same, in the order of the specification, and `HandlerOptionsFrom(config.DefaultConfig)`
at package initialisation yields options equal to the declared `DefaultOptions` (and
leaves `DefaultOptions` with these values). -/
theorem C13_default_tables_agree :
    (DefaultOptions.TimeFields = ["time", "ts", "@timestamp", "timestamp"] ∧
      DefaultOptions.MessageFields = ["message", "msg"] ∧
      DefaultOptions.LevelFields = ["level", "lvl", "loglevel", "severity"]) ∧
    (config.DefaultConfig.TimeFields = some ["time", "ts", "@timestamp", "timestamp"] ∧
      config.DefaultConfig.MessageFields = some ["message", "msg"] ∧
      config.DefaultConfig.LevelFields = some ["level", "lvl", "loglevel", "severity"]) ∧
    (HandlerOptionsFrom config.DefaultConfig DefaultOptions).1 = DefaultOptions ∧
    initialDefaultOptions = DefaultOptions := by
  decide

/-- C16 (fails on the code). `HandlerOptionsFrom` writes to `DefaultOptions`: after a
call with `TimeFields = ["x"]` the package-level record holds `["x"]`, and a call with
no `TimeFields` returns the built-in list before that call and `["x"]` after it, so the
result is not a function of the config alone. -/
theorem C16_DefaultOptions_written :
    (HandlerOptionsFrom { config.DefaultConfig with TimeFields := some ["x"] }
        initialDefaultOptions).2 ≠ initialDefaultOptions ∧
    (HandlerOptionsFrom { config.DefaultConfig with TimeFields := some ["x"] }
        initialDefaultOptions).2.TimeFields = ["x"] ∧
    (HandlerOptionsFrom { config.DefaultConfig with TimeFields := none }
        initialDefaultOptions).1 ≠
      (HandlerOptionsFrom { config.DefaultConfig with TimeFields := none }
        (afterCalls [{ config.DefaultConfig with TimeFields := some ["x"] }]
          initialDefaultOptions)).1 := by
  decide

/-! ## The timestamps of the two patterns -/

theorem matchFixed_append : ∀ (pre post : List Inst) (r : List Char),
    matchFixed (pre ++ post) r
      = (matchFixed pre r && matchFixed post (r.drop (widthFixed pre))) := by
  intro pre
  induction pre with
  | nil => intro post r; simp [matchFixed, widthFixed]
  | cons i is ih =>
    intro post r
    cases i with
    | bol => simp [matchFixed]
    | eol => simp [matchFixed]
    | cap n => simp [matchFixed]
    | chr c =>
      cases r with
      | nil => simp [matchFixed]
      | cons c1 cs =>
        have e : List.drop (1 + widthFixed is) (c1 :: cs) = List.drop (widthFixed is) cs := by
          rw [Nat.add_comm]; rfl
        simp only [List.cons_append, matchFixed, widthFixed, List.append_eq, ih, e, Bool.and_assoc]
    | rep cls lo hi g =>
      have e : List.drop (widthFixed is) (List.drop lo r)
          = List.drop (lo + widthFixed is) r := by
        rw [List.drop_drop, Nat.add_comm]
      simp only [List.cons_append, matchFixed, widthFixed, List.append_eq, ih, e, Bool.and_assoc]

/-- A text that starts with the 23 common characters of a timestamp and then the
character `c` has `c` at index 23. -/
theorem index23_of_matchFixed (c : Char) (post : List Inst) (d : List Char)
    (h : matchFixed (timestampCommon ++ .chr c :: post) d = true) : d[23]? = some c := by
  rw [matchFixed_append, Bool.and_eq_true] at h
  have hw : widthFixed timestampCommon = 23 := by decide
  rw [hw] at h
  have h2 := h.2
  cases hd : d.drop 23 with
  | nil => rw [hd] at h2; simp [matchFixed] at h2
  | cons c1 cs =>
    rw [hd] at h2
    simp only [matchFixed, Bool.and_eq_true, beq_iff_eq] at h2
    have h3 : (d.drop 23)[0]? = some c1 := by rw [hd]; simp
    rw [List.getElem?_drop] at h3
    rw [← h2.1]
    exact h3

theorem zapTimestamp_eq :
    zapTimestamp = timestampCommon ++ .chr '-' :: [.rep isDigit 4 (some 4) true] := rfl

theorem zapDevDCLogsPrefixRe_eq :
    zapDevDCLogsPrefixRe
      = [.cap 0, .bol, .cap 2] ++ (timestampCommon ++ .chr 'Z' :: []) ++ zapDCAfterZulu := rfl

/-- Every line `zapDevLogsPrefixRe` matches starts with its timestamp part. -/
theorem zap_match_timestamp (d : List Char)
    (h : (FindSubmatch zapDevLogsPrefixRe 5 d).isSome = true) :
    matchFixed zapTimestamp d = true := by
  cases hm : FindSubmatch zapDevLogsPrefixRe 5 d with
  | none => rw [hm] at h; exact absurd h (by simp)
  | some ms =>
    obtain ⟨ts, w1, lvl, w2, loc, w3, msg, w4, body, hz, _⟩ := zap_match d ms hm
    have ht : d.take 28 = ts := by
      rw [hz.line, List.take_append_of_le_length (by rw [hz.ts_length]),
        List.take_of_length_le (by rw [hz.ts_length])]
    rw [← matchFixed_take zapTimestamp d 28 (by decide), ht]
    exact hz.ts_shape

/-- Every line `zapDevDCLogsPrefixRe` matches starts with its timestamp part. -/
theorem zapDC_match_timestamp (d : List Char)
    (h : (FindSubmatch zapDevDCLogsPrefixRe 5 d).isSome = true) :
    matchFixed (timestampCommon ++ .chr 'Z' :: []) d = true := by
  unfold FindSubmatch at h
  have hs : search zapDevDCLogsPrefixRe 0 d = run zapDevDCLogsPrefixRe 0 d (fun _ => 0) :=
    search_zero_bol _ d
  have e : run zapDevDCLogsPrefixRe 0 d (fun _ => 0)
      = run ((timestampCommon ++ .chr 'Z' :: []) ++ zapDCAfterZulu) 0 d
          ((Slots.set (fun _ => 0) 0 0).set 2 0) := rfl
  rw [hs, e, run_fixed_append _ (by decide)] at h
  by_cases hts : matchFixed (timestampCommon ++ .chr 'Z' :: []) d = true
  · exact hts
  · rw [if_neg hts] at h
    exact absurd h (by simp)

/-- A text of 28 characters that the timestamp part of `zapDevLogsPrefixRe` matches
has the shape `dddd-dd-ddTdd:dd:dd.ddd-dddd`. -/
theorem hasShape_of_matchFixed (t : List Char) (h : matchFixed zapTimestamp t = true)
    (hl : t.length = 28) : hasShape timestampShape t = true := by
  match t, hl, h with
  | [c0, c1, c2, c3, c4, c5, c6, c7, c8, c9, c10, c11, c12, c13, c14, c15, c16, c17, c18,
      c19, c20, c21, c22, c23, c24, c25, c26, c27], _, h =>
    simp only [zapTimestamp, matchFixed, List.take, List.drop, List.all_cons, List.all_nil,
      List.length_cons, List.length_nil, Bool.and_eq_true, decide_eq_true_eq, beq_iff_eq,
      Bool.and_true] at h
    simp only [timestampShape, hasShape, Bool.and_eq_true, Bool.and_true, beq_iff_eq]
    simp [h]

/-! ## Theorems: zap_development_handler.go, continued -/

set_option maxRecDepth 100000 in
/-- C15 (fails on the code as stated). The level group of the pattern is `\w{4,5}`: the lines with
the level tokens `PANIC`, `abcd` and `1234` are accepted, and the handler then holds the
levels `panic`, `abcd` and `1234`, none of which is one of debug, error, info, warn,
fatal. This holds for every `TryHandle` that accepts the payload `{"a":1}`. -/
theorem C15_level_outside_documented_set :
    ((tryZapDevPrefix JSONHandler.TryHandle linePanic freshHandler).1 = true ∧
      (tryZapDevPrefix JSONHandler.TryHandle linePanic freshHandler).2.Level = "panic" ∧
      (tryZapDevPrefix JSONHandler.TryHandle lineAbcd freshHandler).1 = true ∧
      (tryZapDevPrefix JSONHandler.TryHandle lineAbcd freshHandler).2.Level = "abcd" ∧
      (tryZapDevPrefix JSONHandler.TryHandle line1234 freshHandler).1 = true ∧
      (tryZapDevPrefix JSONHandler.TryHandle line1234 freshHandler).2.Level = "1234") ∧
    ("panic" ∉ ["debug", "error", "info", "warn", "fatal"] ∧
      "abcd" ∉ ["debug", "error", "info", "warn", "fatal"] ∧
      "1234" ∉ ["debug", "error", "info", "warn", "fatal"]) ∧
    (∀ (TryHandle : List Char → JSONHandler → Bool × JSONHandler) (handler : JSONHandler),
      (TryHandle payloadA handler).1 = true →
      (tryZapDevPrefix TryHandle linePanic handler).1 = true ∧
      (tryZapDevPrefix TryHandle linePanic handler).2.Level = "panic") := by
  refine ⟨by decide, by decide, ?_⟩
  intro TryHandle handler hT
  have hm : FindSubmatch zapDevLogsPrefixRe 5 linePanic
      = some [linePanic, "2021-01-01T00:00:00.000-0700".toList, "PANIC".toList,
          "main.go:10".toList, "hello".toList, payloadA] := by decide
  rw [tryZapDevPrefix_of_accepted TryHandle linePanic handler _
    { year := 2021, month := 1, day := 1, hour := 0, minute := 0, second := 0,
      nanosecond := 0, zoneOffset := -25200 } hm hT (by decide)]
  exact ⟨rfl, rfl⟩

/-- C17. Every line `tryZapDevPrefix` accepts begins with 28 characters of the shape
`dddd-dd-ddTdd:dd:dd.ddd-dddd`, with `-` at index 23. Every line that has another
character at index 23 (a `+`, a `Z`) or is shorter is not matched by the pattern and is
rejected with the handler unchanged, whatever `TryHandle` is, although the layout
itself parses a timestamp with a `+` offset. -/
theorem C17_only_negative_offset
    (TryHandle : List Char → JSONHandler → Bool × JSONHandler) (d : List Char)
    (handler : JSONHandler) :
    ((tryZapDevPrefix TryHandle d handler).1 = true →
      hasShape timestampShape (d.take 28) = true ∧ d[23]? = some '-') ∧
    (d[23]? ≠ some '-' →
      FindSubmatch zapDevLogsPrefixRe 5 d = none ∧
      tryZapDevPrefix TryHandle d handler = (false, handler)) ∧
    ((parseSomeRFC "2021-01-01T00:00:00.000+0100".toList).isSome = true ∧
      linePlusOffset[23]? = some '+' ∧
      tryZapDevPrefix TryHandle linePlusOffset handler = (false, handler) ∧
      lineZulu[23]? = some 'Z' ∧
      tryZapDevPrefix TryHandle lineZulu handler = (false, handler)) := by
  have hdash : ∀ x : List Char, (FindSubmatch zapDevLogsPrefixRe 5 x).isSome = true →
      x[23]? = some '-' := by
    intro x hx
    have := zap_match_timestamp x hx
    rw [zapTimestamp_eq] at this
    exact index23_of_matchFixed '-' _ x this
  have hrej : ∀ x : List Char, x[23]? ≠ some '-' →
      FindSubmatch zapDevLogsPrefixRe 5 x = none ∧
      tryZapDevPrefix TryHandle x handler = (false, handler) := by
    intro x hx
    have hnone : FindSubmatch zapDevLogsPrefixRe 5 x = none := by
      cases hm : FindSubmatch zapDevLogsPrefixRe 5 x with
      | none => rfl
      | some ms => exact absurd (hdash x (by rw [hm]; rfl)) hx
    exact ⟨hnone, tryZapDevPrefix_of_no_match TryHandle x handler hnone⟩
  refine ⟨?_, hrej d, by decide, by decide, (hrej linePlusOffset (by decide)).2, by decide,
    (hrej lineZulu (by decide)).2⟩
  intro h
  obtain ⟨ms, t, hm, _, _, _⟩ := tryZapDevPrefix_true TryHandle d handler h
  obtain ⟨ts, w1, lvl, w2, loc, w3, msg, w4, body, hz, _⟩ := zap_match d ms hm
  have ht : d.take 28 = ts := by
    rw [hz.line, List.take_append_of_le_length (by rw [hz.ts_length]),
      List.take_of_length_le (by rw [hz.ts_length])]
  refine ⟨?_, hdash d (by rw [hm]; rfl)⟩
  rw [ht]
  exact hasShape_of_matchFixed ts hz.ts_shape hz.ts_length

set_option maxRecDepth 100000 in
/-- C17 at a concrete input: the well-formed line is accepted and begins with a
timestamp of the shape. -/
theorem C17_only_negative_offset_witness :
    (tryZapDevPrefix JSONHandler.TryHandle lineWellFormed freshHandler).1 = true ∧
    hasShape timestampShape (lineWellFormed.take 28) = true ∧
    lineWellFormed[23]? = some '-' :=
  ⟨by decide,
    (C17_only_negative_offset JSONHandler.TryHandle lineWellFormed freshHandler).1
      (by decide)⟩

/-- C18. No line is matched by both `zapDevLogsPrefixRe` and `zapDevDCLogsPrefixRe`:
the first demands `-` at index 23, the second `Z`. Each pattern does match a line: the
space-separated line is matched by the first only, the tab-separated line by the second
only. -/
theorem C18_patterns_disjoint :
    (∀ d : List Char, ¬ ((FindSubmatch zapDevLogsPrefixRe 5 d).isSome = true ∧
      (FindSubmatch zapDevDCLogsPrefixRe 5 d).isSome = true)) ∧
    ((FindSubmatch zapDevLogsPrefixRe 5 lineWellFormed).isSome = true ∧
      (FindSubmatch zapDevDCLogsPrefixRe 5 lineWellFormed).isSome = false) ∧
    ((FindSubmatch zapDevLogsPrefixRe 5 lineTabs).isSome = false ∧
      (FindSubmatch zapDevDCLogsPrefixRe 5 lineTabs).isSome = true) := by
  refine ⟨?_, by decide, by decide⟩
  rintro d ⟨h1, h2⟩
  have a1 := zap_match_timestamp d h1
  rw [zapTimestamp_eq] at a1
  have b1 := index23_of_matchFixed '-' _ d a1
  have b2 := index23_of_matchFixed 'Z' _ d (zapDC_match_timestamp d h2)
  rw [b1] at b2
  exact absurd b2 (by decide)

/-! ## The timestamp token and the layout -/

theorem hasShape_length : ∀ (s t : List Char), hasShape s t = true → t.length = s.length := by
  intro s
  induction s with
  | nil =>
    intro t h
    cases t with
    | nil => rfl
    | cons c cs => simp [hasShape] at h
  | cons a as ih =>
    intro t h
    cases t with
    | nil => simp [hasShape] at h
    | cons c cs =>
      simp only [hasShape, Bool.and_eq_true] at h
      simp [ih cs h.2]

/-- On a token of the shape `dddd-dd-ddTdd:dd:dd.ddd-dddd` the layout reads the fields
at their positions. -/
theorem readSomeRFC_of_shape (t : List Char) (h : hasShape timestampShape t = true) :
    readSomeRFC t = some (timestampRaw t) := by
  have hl : t.length = 28 := hasShape_length _ _ h
  match t, hl, h with
  | [c0, c1, c2, c3, c4, c5, c6, c7, c8, c9, c10, c11, c12, c13, c14, c15, c16, c17, c18,
      c19, c20, c21, c22, c23, c24, c25, c26, c27], _, h =>
    simp only [timestampShape, hasShape, Bool.and_eq_true, Bool.and_true, beq_iff_eq] at h
    simp +decide only [if_true, if_false] at h
    obtain ⟨d0, d1, d2, d3, e4, d5, d6, e7, d8, d9, e10, d11, d12, e13, d14, d15, e16, d17,
      d18, e19, d20, d21, d22, e23, d24, d25, d26, d27⟩ := h
    simp only [beq_iff_eq] at e4 e7 e10 e13 e16 e19 e23
    subst e4 e7 e10 e13 e16 e19 e23
    simp [readSomeRFC, readDate, readClock, takeDigits, takeDigits12, takeChar, takeMillis,
      takeZone, timestampRaw, digitsAt, d0, d1, d2, d3, d5, d6, d8, d9, d11, d12, d14, d15,
      d17, d18, d20, d21, d22, d24, d25, d26, d27]

theorem sign_of_shape (t : List Char) (h : hasShape timestampShape t = true) :
    t.getD 23 '-' = '-' := by
  have hl : t.length = 28 := hasShape_length _ _ h
  match t, hl, h with
  | [c0, c1, c2, c3, c4, c5, c6, c7, c8, c9, c10, c11, c12, c13, c14, c15, c16, c17, c18,
      c19, c20, c21, c22, c23, c24, c25, c26, c27], _, h =>
    simp only [timestampShape, hasShape, Bool.and_eq_true, Bool.and_true, beq_iff_eq] at h
    simp +decide only [if_true, if_false] at h
    have e23 := h.2.2.2.2.2.2.2.2.2.2.2.2.2.2.2.2.2.2.2.2.2.2.2.1
    simp only [beq_iff_eq] at e23
    subst e23
    rfl

theorem inRange_timestampRaw (t : List Char) :
    inRange (timestampRaw t) = timestampValid t := by
  rw [Bool.eq_iff_iff]
  simp only [inRange, timestampRaw, timestampValid, Bool.and_eq_true, decide_eq_true_eq]
  tauto

/-- The call `time.Parse(someRFC, t)` on a token of the shape
`dddd-dd-ddTdd:dd:dd.ddd-dddd`: the instant the token denotes when that is a date and
time of day, an error otherwise. -/
theorem parseSomeRFC_of_shape (t : List Char) (h : hasShape timestampShape t = true) :
    parseSomeRFC t = if timestampValid t = true then some (timestampInstant t) else none := by
  unfold parseSomeRFC
  rw [readSomeRFC_of_shape t h]
  simp only [inRange_timestampRaw]
  by_cases hv : timestampValid t = true
  · rw [if_pos hv, if_pos hv]
    have hz : zoneSeconds (timestampRaw t)
        = -(((digitsAt t 24 2 * 3600 + digitsAt t 26 2 * 60 : Nat) : Int)) := by
      have hs : (timestampRaw t).sign = '-' := sign_of_shape t h
      unfold zoneSeconds
      rw [hs]
      simp only [beq_self_eq_true, if_true, timestampRaw]
      congr 2
      ring
    rw [hz]
    rfl
  · rw [if_neg hv, if_neg hv]

/-! ## The split of a line is unique -/

theorem takeWhile_append_of_all (p : Char → Bool) : ∀ (a b : List Char), a.all p = true →
    (∀ c t, b = c :: t → p c = false) →
    (a ++ b).takeWhile p = a ∧ (a ++ b).dropWhile p = b := by
  intro a
  induction a with
  | nil =>
    intro b _ hb
    cases b with
    | nil => simp
    | cons c t => simp [List.takeWhile_cons, List.dropWhile_cons, hb c t rfl]
  | cons x xs ih =>
    intro b ha hb
    simp only [List.all_cons, Bool.and_eq_true] at ha
    obtain ⟨h1, h2⟩ := ih b ha.2 hb
    simp [List.takeWhile_cons, List.dropWhile_cons, ha.1, h1, h2]

/-- A run of class characters followed by a text that does not start with one is
determined by the whole. -/
theorem span_unique (p : Char → Bool) (a b a2 b2 : List Char) (h : a ++ b = a2 ++ b2)
    (ha : a.all p = true) (ha2 : a2.all p = true)
    (hb : ∀ c t, b = c :: t → p c = false) (hb2 : ∀ c t, b2 = c :: t → p c = false) :
    a = a2 ∧ b = b2 := by
  obtain ⟨h1, h2⟩ := takeWhile_append_of_all p a b ha hb
  obtain ⟨h3, h4⟩ := takeWhile_append_of_all p a2 b2 ha2 hb2
  rw [h] at h1 h2
  exact ⟨h1.symm.trans h3, h2.symm.trans h4⟩

theorem head_cls (q : Char → Bool) (l rest : List Char) (hne : l ≠ [])
    (hall : l.all q = true) : ∀ c t, l ++ rest = c :: t → q c = true := by
  intro c t h
  cases l with
  | nil => exact absurd rfl hne
  | cons x xs =>
    simp only [List.cons_append, List.cons.injEq] at h
    simp only [List.all_cons, Bool.and_eq_true] at hall
    rw [← h.1]
    exact hall.1

theorem isTrimmed_first (m : List Char) (h : isTrimmed m = true) :
    ∀ c t, m = c :: t → isSpace c = false := by
  intro c t hm
  subst hm
  unfold isTrimmed at h
  rw [List.head?_cons] at h
  cases hl : (c :: t).getLast? with
  | none => rw [hl] at h; exact absurd h (by simp)
  | some b =>
    rw [hl] at h
    simp only [Bool.and_eq_true, Bool.not_eq_true'] at h
    exact h.1

theorem isTrimmed_last (m : List Char) (h : isTrimmed m = true) :
    ∀ c t, m.reverse = c :: t → isSpace c = false := by
  intro c t hm
  have hm2 : m = t.reverse ++ [c] := by
    have := congrArg List.reverse hm
    simpa using this
  subst hm2
  unfold isTrimmed at h
  rw [List.getLast?_concat] at h
  cases hh : (t.reverse ++ [c]).head? with
  | none => rw [hh] at h; exact absurd h (by simp)
  | some a =>
    rw [hh] at h
    simp only [Bool.and_eq_true, Bool.not_eq_true'] at h
    exact h.2

theorem all_isNotBrace_of_all_isSpace (l : List Char) (h : l.all isSpace = true) :
    l.all isNotBrace = true := by
  rw [List.all_eq_true] at h ⊢
  intro c hc
  exact isNotBrace_of_isSpace c (h c hc)

/-- The middle of a split (whitespace, message, whitespace) is determined by the text
between the location and the payload. -/
theorem middle_unique (w3 msg w4 v3 msg2 v4 : List Char)
    (e : w3 ++ (msg ++ w4) = v3 ++ (msg2 ++ v4))
    (hw3 : w3.all isSpace = true) (hv3 : v3.all isSpace = true)
    (hw4 : w4.all isSpace = true) (hv4 : v4.all isSpace = true)
    (hm : msg ≠ []) (hm2 : msg2 ≠ [])
    (ht : isTrimmed msg = true ∨ ∃ c, msg = [c] ∧ isSpace c = true)
    (ht2 : isTrimmed msg2 = true ∨ ∃ c, msg2 = [c] ∧ isSpace c = true)
    (hs : ∀ c, msg = [c] → isSpace c = true → w4.length = 1)
    (hs2 : ∀ c, msg2 = [c] → isSpace c = true → v4.length = 1) :
    w3 = v3 ∧ msg = msg2 ∧ w4 = v4 := by
  have hfirst : ∀ (m w : List Char), m ≠ [] → isTrimmed m = true →
      ∀ c t, m ++ w = c :: t → isSpace c = false := by
    intro m w hne hmt c t h
    cases m with
    | nil => exact absurd rfl hne
    | cons x xs =>
      simp only [List.cons_append, List.cons.injEq] at h
      rw [← h.1]
      exact isTrimmed_first _ hmt x xs rfl
  have hblank : ∀ (a m b a2 m2 b2 : List Char), a ++ (m ++ b) = a2 ++ (m2 ++ b2) →
      a2.all isSpace = true → b2.all isSpace = true → m ≠ [] → isTrimmed m = true →
      (∃ c, m2 = [c] ∧ isSpace c = true) → False := by
    intro a m b a2 m2 b2 h ha2 hb2 hne hmt hc
    obtain ⟨c, hc1, hc2⟩ := hc
    have hall : (a ++ (m ++ b)).all isSpace = true := by
      rw [h, List.all_append, List.all_append, ha2, hb2, hc1]
      simp [hc2]
    rw [List.all_append, List.all_append] at hall
    simp only [Bool.and_eq_true] at hall
    cases m with
    | nil => exact hne rfl
    | cons x xs =>
      have h1 := isTrimmed_first _ hmt x xs rfl
      have h2 := hall.2.1
      simp only [List.all_cons, Bool.and_eq_true] at h2
      rw [h2.1] at h1
      exact absurd h1 (by decide)
  rcases ht with ht | hc
  · rcases ht2 with ht2 | hc2
    · obtain ⟨e1, e2⟩ := span_unique isSpace w3 (msg ++ w4) v3 (msg2 ++ v4) e hw3 hv3
        (hfirst msg w4 hm ht) (hfirst msg2 v4 hm2 ht2)
      have e3 : w4.reverse ++ msg.reverse = v4.reverse ++ msg2.reverse := by
        have := congrArg List.reverse e2
        simpa using this
      obtain ⟨e4, e5⟩ := span_unique isSpace w4.reverse msg.reverse v4.reverse msg2.reverse e3
        (by rw [List.all_reverse]; exact hw4) (by rw [List.all_reverse]; exact hv4)
        (isTrimmed_last msg ht) (isTrimmed_last msg2 ht2)
      exact ⟨e1, List.reverse_injective e5, List.reverse_injective e4⟩
    · exact (hblank w3 msg w4 v3 msg2 v4 e hv3 hv4 hm ht hc2).elim
  · rcases ht2 with ht2 | hc2
    · exact (hblank v3 msg2 v4 w3 msg w4 e.symm hw3 hw4 hm2 ht2 hc).elim
    · obtain ⟨c, hc1, hcs⟩ := hc
      obtain ⟨c2, hc21, hcs2⟩ := hc2
      have l1 := hs c hc1 hcs
      have l2 := hs2 c2 hc21 hcs2
      subst hc1 hc21
      have hlen := congrArg List.length e
      simp only [List.length_append, List.length_singleton, l1, l2] at hlen
      have hl3 : w3.length = v3.length := by omega
      obtain ⟨e1, e2⟩ := List.append_inj e hl3
      have e3 := List.append_inj e2 rfl
      exact ⟨e1, e3.1, e3.2⟩

/-- A line has at most one split into the parts of `zapDevLogsPrefixRe`. -/
theorem ZapSplit.unique {d ts w1 lvl w2 loc w3 msg w4 body ts2 v1 lvl2 v2 loc2 v3 msg2 v4
    body2 : List Char} (h1 : ZapSplit d ts w1 lvl w2 loc w3 msg w4 body)
    (h2 : ZapSplit d ts2 v1 lvl2 v2 loc2 v3 msg2 v4 body2) :
    ts = ts2 ∧ w1 = v1 ∧ lvl = lvl2 ∧ w2 = v2 ∧ loc = loc2 ∧ w3 = v3 ∧ msg = msg2 ∧
      w4 = v4 ∧ body = body2 := by
  have hne : ∀ l : List Char, 4 ≤ l.length → l ≠ [] := by
    intro l hl he
    rw [he] at hl
    simp at hl
  have e0 := h1.line.symm.trans h2.line
  obtain ⟨ets, e0⟩ := List.append_inj e0 (by rw [h1.ts_length, h2.ts_length])
  obtain ⟨ew1, e0⟩ := span_unique isSpace _ _ _ _ e0 h1.w1_space h2.w1_space
    (fun c t hc => isSpace_of_isWord c
      (head_cls isWord lvl _ (hne _ h1.lvl_length.1) h1.lvl_word c t hc))
    (fun c t hc => isSpace_of_isWord c
      (head_cls isWord lvl2 _ (hne _ h2.lvl_length.1) h2.lvl_word c t hc))
  obtain ⟨elvl, e0⟩ := span_unique isWord _ _ _ _ e0 h1.lvl_word h2.lvl_word
    (fun c t hc => isWord_of_isSpace c (head_cls isSpace w2 _ h1.w2_ne h1.w2_space c t hc))
    (fun c t hc => isWord_of_isSpace c (head_cls isSpace v2 _ h2.w2_ne h2.w2_space c t hc))
  obtain ⟨ew2, e0⟩ := span_unique isSpace _ _ _ _ e0 h1.w2_space h2.w2_space
    (fun c t hc => by
      have := head_cls isNonSpace loc _ h1.loc_ne h1.loc_nonSpace c t hc
      simpa [isNonSpace] using this)
    (fun c t hc => by
      have := head_cls isNonSpace loc2 _ h2.loc_ne h2.loc_nonSpace c t hc
      simpa [isNonSpace] using this)
  obtain ⟨eloc, e0⟩ := span_unique isNonSpace _ _ _ _ e0 h1.loc_nonSpace h2.loc_nonSpace
    (fun c t hc => by
      have := head_cls isSpace w3 _ h1.w3_ne h1.w3_space c t hc
      simp [isNonSpace, this])
    (fun c t hc => by
      have := head_cls isSpace v3 _ h2.w3_ne h2.w3_space c t hc
      simp [isNonSpace, this])
  have e1 : (w3 ++ (msg ++ w4)) ++ body = (v3 ++ (msg2 ++ v4)) ++ body2 := by
    simpa [List.append_assoc] using e0
  have hbody : ∀ b : List Char,
      (∃ inner, b = '{' :: (inner ++ ['}']) ∧ inner ≠ [] ∧ inner.all isDot = true) →
      ∀ c t, b = c :: t → isNotBrace c = false := by
    rintro b ⟨inner, hb, _, _⟩ c t hc
    rw [hb] at hc
    simp only [List.cons.injEq] at hc
    rw [← hc.1]
    decide
  have hmid : ∀ (a m b : List Char), a.all isSpace = true → m.all isNotBrace = true →
      b.all isSpace = true → (a ++ (m ++ b)).all isNotBrace = true := by
    intro a m b ha hm hb
    rw [List.all_append, List.all_append, all_isNotBrace_of_all_isSpace a ha, hm,
      all_isNotBrace_of_all_isSpace b hb]
    rfl
  obtain ⟨e2, ebody⟩ := span_unique isNotBrace _ _ _ _ e1
    (hmid _ _ _ h1.w3_space h1.msg_notBrace h1.w4_space)
    (hmid _ _ _ h2.w3_space h2.msg_notBrace h2.w4_space)
    (hbody body h1.body_shape) (hbody body2 h2.body_shape)
  obtain ⟨ew3, emsg, ew4⟩ := middle_unique w3 msg w4 v3 msg2 v4 e2 h1.w3_space h2.w3_space
    h1.w4_space h2.w4_space h1.msg_ne h2.msg_ne h1.msg_trim h2.msg_trim h1.w4_single
    h2.w4_single
  exact ⟨ets, ew1, elvl, ew2, eloc, ew3, emsg, ew4, ebody⟩

/-! ## Theorems: zap_development_handler.go, the positional slots -/

/-- C6. Whenever `tryZapDevPrefix` returns true, the pattern has captured the timestamp,
level and message tokens of the one split of the line; the timestamp token has the shape
`dddd-dd-ddTdd:dd:dd.ddd-dddd` and denotes a date and time of day, and `time.Parse`
with the layout gives its instant (the fields as written, milliseconds as nanoseconds,
the zone `-hhmm` as a negative offset in seconds); the handler holds that instant as
Time, the lowercased level token as Level and the message token as Message, whatever
`TryHandle` stored in these slots. -/
theorem C6_positional_time_level_message
    (TryHandle : List Char → JSONHandler → Bool × JSONHandler) (d : List Char)
    (handler : JSONHandler) (h : (tryZapDevPrefix TryHandle d handler).1 = true) :
    ∃ ts w1 lvl w2 loc w3 msg w4 body,
      FindSubmatch zapDevLogsPrefixRe 5 d = some [d, ts, lvl, loc, msg, body] ∧
      ZapSplit d ts w1 lvl w2 loc w3 msg w4 body ∧
      (∀ ts2 v1 lvl2 v2 loc2 v3 msg2 v4 body2,
        ZapSplit d ts2 v1 lvl2 v2 loc2 v3 msg2 v4 body2 →
        ts2 = ts ∧ lvl2 = lvl ∧ msg2 = msg) ∧
      hasShape timestampShape ts = true ∧ timestampValid ts = true ∧
      parseSomeRFC ts = some (timestampInstant ts) ∧
      (tryZapDevPrefix TryHandle d handler).2.Time = some (timestampInstant ts) ∧
      (tryZapDevPrefix TryHandle d handler).2.Level = String.mk (ToLower lvl) ∧
      (tryZapDevPrefix TryHandle d handler).2.Message = String.mk msg := by
  obtain ⟨ms, t, hm, _, hp, hres⟩ := tryZapDevPrefix_true TryHandle d handler h
  obtain ⟨ts, w1, lvl, w2, loc, w3, msg, w4, body, hz, hms⟩ := zap_match d ms hm
  subst hms
  have hshape := hasShape_of_matchFixed ts hz.ts_shape hz.ts_length
  have hp2 : parseSomeRFC ts = some t := hp
  rw [parseSomeRFC_of_shape ts hshape] at hp2
  have hvalid : timestampValid ts = true := by
    by_contra hv
    rw [if_neg hv] at hp2
    exact absurd hp2 (by simp)
  rw [if_pos hvalid, Option.some.injEq] at hp2
  subst hp2
  refine ⟨ts, w1, lvl, w2, loc, w3, msg, w4, body, hm, hz, ?_, hshape, hvalid, hp, ?_, ?_, ?_⟩
  · intro ts2 v1 lvl2 v2 loc2 v3 msg2 v4 body2 hz2
    obtain ⟨e1, _, e3, _, _, _, e7, _, _⟩ := hz2.unique hz
    exact ⟨e1, e3, e7⟩
  · rw [hres]; rfl
  · rw [hres]; rfl
  · rw [hres]; rfl

set_option maxRecDepth 100000 in
/-- C6 at a concrete input: the payload sets `msg`, `level` and `ts` itself, and
`TryHandle` lifts them into the record; after `tryZapDevPrefix` the record holds the
positional time (1 January 2021, 00:00:00.000, seven hours west of UTC), level and
message. -/
theorem C6_positional_time_level_message_witness :
    ((tryZapDevPrefix JSONHandler.TryHandle lineOverride freshHandler).1 = true ∧
      (JSONHandler.TryHandle (lineOverride.drop 51) freshHandler).2.Level = "error" ∧
      (JSONHandler.TryHandle (lineOverride.drop 51) freshHandler).2.Message = "m" ∧
      (JSONHandler.TryHandle (lineOverride.drop 51) freshHandler).2.Time
        = some { year := 2024, month := 1, day := 1, hour := 0, minute := 0, second := 0,
                 nanosecond := 0, zoneOffset := 0 } ∧
      (tryZapDevPrefix JSONHandler.TryHandle lineOverride freshHandler).2.Level = "warn" ∧
      (tryZapDevPrefix JSONHandler.TryHandle lineOverride freshHandler).2.Message = "hello" ∧
      (tryZapDevPrefix JSONHandler.TryHandle lineOverride freshHandler).2.Time
        = some { year := 2021, month := 1, day := 1, hour := 0, minute := 0, second := 0,
                 nanosecond := 0, zoneOffset := -25200 }) ∧
    ∃ ts w1 lvl w2 loc w3 msg w4 body,
      FindSubmatch zapDevLogsPrefixRe 5 lineOverride
        = some [lineOverride, ts, lvl, loc, msg, body] ∧
      ZapSplit lineOverride ts w1 lvl w2 loc w3 msg w4 body ∧
      (∀ ts2 v1 lvl2 v2 loc2 v3 msg2 v4 body2,
        ZapSplit lineOverride ts2 v1 lvl2 v2 loc2 v3 msg2 v4 body2 →
        ts2 = ts ∧ lvl2 = lvl ∧ msg2 = msg) ∧
      hasShape timestampShape ts = true ∧ timestampValid ts = true ∧
      parseSomeRFC ts = some (timestampInstant ts) ∧
      (tryZapDevPrefix JSONHandler.TryHandle lineOverride freshHandler).2.Time
        = some (timestampInstant ts) ∧
      (tryZapDevPrefix JSONHandler.TryHandle lineOverride freshHandler).2.Level
        = String.mk (ToLower lvl) ∧
      (tryZapDevPrefix JSONHandler.TryHandle lineOverride freshHandler).2.Message
        = String.mk msg :=
  ⟨by decide,
    C6_positional_time_level_message JSONHandler.TryHandle lineOverride freshHandler
      (by decide)⟩

/-- C15 (amended). For every accepted line the level token is a run of four or five
word characters (ASCII letters, digits, underscore) with whitespace on both sides, and
the handler's Level is that token lowercased. -/
theorem C15_level_is_word_run
    (TryHandle : List Char → JSONHandler → Bool × JSONHandler) (d : List Char)
    (handler : JSONHandler) (h : (tryZapDevPrefix TryHandle d handler).1 = true) :
    ∃ ts w1 lvl w2 loc w3 msg w4 body,
      FindSubmatch zapDevLogsPrefixRe 5 d = some [d, ts, lvl, loc, msg, body] ∧
      ZapSplit d ts w1 lvl w2 loc w3 msg w4 body ∧
      (4 ≤ lvl.length ∧ lvl.length ≤ 5) ∧ lvl.all isWord = true ∧
      (tryZapDevPrefix TryHandle d handler).2.Level = String.mk (ToLower lvl) := by
  obtain ⟨ms, t, hm, _, hp, hres⟩ := tryZapDevPrefix_true TryHandle d handler h
  obtain ⟨ts, w1, lvl, w2, loc, w3, msg, w4, body, hz, hms⟩ := zap_match d ms hm
  subst hms
  refine ⟨ts, w1, lvl, w2, loc, w3, msg, w4, body, hm, hz, hz.lvl_length, hz.lvl_word, ?_⟩
  rw [hres]; rfl

set_option maxRecDepth 100000 in
/-- C15 (amended) at a concrete input: the line with the level `INFO` is accepted and
the handler holds the level `info`. -/
theorem C15_level_is_word_run_witness :
    ((tryZapDevPrefix JSONHandler.TryHandle lineWellFormed freshHandler).1 = true ∧
      (tryZapDevPrefix JSONHandler.TryHandle lineWellFormed freshHandler).2.Level = "info") ∧
    ∃ ts w1 lvl w2 loc w3 msg w4 body,
      FindSubmatch zapDevLogsPrefixRe 5 lineWellFormed
        = some [lineWellFormed, ts, lvl, loc, msg, body] ∧
      ZapSplit lineWellFormed ts w1 lvl w2 loc w3 msg w4 body ∧
      (4 ≤ lvl.length ∧ lvl.length ≤ 5) ∧ lvl.all isWord = true ∧
      (tryZapDevPrefix JSONHandler.TryHandle lineWellFormed freshHandler).2.Level
        = String.mk (ToLower lvl) :=
  ⟨by decide,
    C15_level_is_word_run JSONHandler.TryHandle lineWellFormed freshHandler (by decide)⟩

end Humanlog
